import Mathlib

/-!
Verification development for the multi-agent personal work assistant backend.

The definitions below are shallow embeddings of the Python source:
* `backend/guardrails.py` — sensitive-content / dangerous-action detection,
  sliding-window rate limiting, the email-send and calendar-operation checks,
  and the `apply_guardrails` dispatcher;
* `backend/utils.py` — `extract_json_from_response`;
* `backend/agents/task_agent.py` — blocker analysis and the final
  prioritization sort;
* `backend/orchestrator_modern.py` — the router loop check;
* `backend/tools/calendar_tools.py` — the free-slot scan.

Machine time (`datetime.now()`) is modelled by an explicit `now : Nat`
parameter (seconds).  Python regular expressions are modelled by executable
character-list matchers with the same match semantics (existence of a match
for `re.search`/`re.findall`-nonemptiness, anchored match for `re.match`),
restricted to ASCII text.
-/

namespace Assistant

/-- ASCII whitespace, as matched by the Python regex class `\s` and stripped
by `str.strip()` on ASCII text. -/
def isSpaceC (c : Char) : Bool :=
  c = ' ' || c = '\t' || c = '\n' || c = '\r' || c = '\x0b' || c = '\x0c'

/-- Python regex word character `\w` (ASCII): letters, digits, underscore. -/
def isWordC (c : Char) : Bool :=
  c.isAlpha || c.isDigit || c = '_'

/-- Consume exactly `n` ASCII digits (`\d\{n\}`), returning the remainder. -/
def takeNDigits : Nat → List Char → Option (List Char)
  | 0, cs => some cs
  | _ + 1, [] => none
  | n + 1, c :: cs => if c.isDigit then takeNDigits n cs else none

/-- Consume an optional single separator `[\s-]?` (greedy). -/
def optSep : List Char → List Char
  | [] => []
  | c :: rest => if isSpaceC c || c = '-' then rest else c :: rest

/-- Trailing word boundary `\b` after a word character: the next character is
absent or a non-word character. -/
def trailingBoundary : List Char → Bool
  | [] => true
  | c :: _ => !(isWordC c)

/-- Match of the credit-card pattern
`\b\d\{4\}[\s-]?\d\{4\}[\s-]?\d\{4\}[\s-]?\d\{4\}\b` starting exactly at the
head of the list (the leading boundary is checked by the scanner). -/
def ccHere (cs : List Char) : Bool :=
  match takeNDigits 4 cs with
  | none => false
  | some r1 =>
    match takeNDigits 4 (optSep r1) with
    | none => false
    | some r2 =>
      match takeNDigits 4 (optSep r2) with
      | none => false
      | some r3 =>
        match takeNDigits 4 (optSep r3) with
        | none => false
        | some r4 => trailingBoundary r4

/-- Match of the SSN pattern `\b\d\{3\}-\d\{2\}-\d\{4\}\b` starting exactly at
the head of the list. -/
def ssnHere (cs : List Char) : Bool :=
  match takeNDigits 3 cs with
  | none => false
  | some r1 =>
    match r1 with
    | '-' :: r1b =>
      match takeNDigits 2 r1b with
      | none => false
      | some r2 =>
        match r2 with
        | '-' :: r2b =>
          match takeNDigits 4 r2b with
          | none => false
          | some r3 => trailingBoundary r3
        | _ => false
    | _ => false

/-- Case-insensitive literal prefix match, returning the remainder. -/
def dropPrefixCI : List Char → List Char → Option (List Char)
  | [], cs => some cs
  | _ :: _, [] => none
  | p :: ps, c :: cs => if p.toLower = c.toLower then dropPrefixCI ps cs else none

/-- The separator class `[\s:=]` of the password / api-key patterns. -/
def isSepClassC (c : Char) : Bool := isSpaceC c || c = ':' || c = '='

/-- The value class `[\w@#$%]` of the password pattern. -/
def isPwValC (c : Char) : Bool := isWordC c || c = '@' || c = '#' || c = '$' || c = '%'

/-- The value class `[\w-]` of the api-key pattern. -/
def isAkValC (c : Char) : Bool := isWordC c || c = '-'

/-- Match of `password[\s:=]+[\w@#$%]+` (IGNORECASE) starting at the head:
one or more separators followed by at least one value character.  The two
character classes are disjoint, so greedy matching equals existence. -/
def pwHere (cs : List Char) : Bool :=
  match dropPrefixCI "password".data cs with
  | none => false
  | some rest =>
    match rest with
    | c :: r =>
      if isSepClassC c then
        match r.dropWhile isSepClassC with
        | d :: _ => isPwValC d
        | [] => false
      else false
    | [] => false

/-- Match of `[Aa][Pp][Ii]_?[Kk][Ee][Yy][\s:=]+[\w-]+` starting at the head. -/
def akHere (cs : List Char) : Bool :=
  match dropPrefixCI "api".data cs with
  | none => false
  | some r1 =>
    let r2 := match r1 with
      | '_' :: r => r
      | r => r
    match dropPrefixCI "key".data r2 with
    | none => false
    | some r3 =>
      match r3 with
      | c :: r =>
        if isSepClassC c then
          match r.dropWhile isSepClassC with
          | d :: _ => isAkValC d
          | [] => false
        else false
      | [] => false

/-- Local-part class `[A-Za-z0-9._%+-]` of the email patterns. -/
def isLocalC (c : Char) : Bool :=
  c.isAlpha || c.isDigit || c = '.' || c = '_' || c = '%' || c = '+' || c = '-'

/-- Domain class `[A-Za-z0-9.-]` of the email patterns. -/
def isDomainC (c : Char) : Bool :=
  c.isAlpha || c.isDigit || c = '.' || c = '-'

/-- Top-level-domain class `[A-Z|a-z]` of the sensitive email pattern (the
pattern literally includes the pipe character). -/
def isTldSensC (c : Char) : Bool := c.isAlpha || c = '|'

/-- Top-level-domain class `[a-zA-Z]` of the recipient-validation pattern. -/
def isTldC (c : Char) : Bool := c.isAlpha

/-- Match of the sensitive email pattern
`\b[A-Za-z0-9._%+-]+@[A-Za-z0-9.-]+\.[A-Z|a-z]\{2,\}\b` starting at the head,
where `prevW` is the wordness of the preceding character (`false` at the
start of the text).  Implemented as existence over all split points, which
coincides with backtracking regex matching. -/
def emailSensAt (prevW : Bool) (cs : List Char) : Bool :=
  match cs with
  | [] => false
  | c :: _ =>
    (prevW != isWordC c) &&
    (List.range (cs.length + 1)).any (fun i =>
      decide (0 < i) && (cs.take i).all isLocalC && ((cs.drop i).headD '?' == '@') &&
      (let rest := (cs.drop i).tail
       (List.range (rest.length + 1)).any (fun j =>
         decide (0 < j) && (rest.take j).all isDomainC && ((rest.drop j).headD '?' == '.') &&
         (let t := (rest.drop j).tail
          (List.range (t.length + 1)).any (fun k =>
            decide (2 ≤ k) && decide (k ≤ t.length) && (t.take k).all isTldSensC &&
            (isWordC ((t.take k).getLastD '?') !=
              (match t.drop k with
               | [] => false
               | d :: _ => isWordC d)))))))

/-- Scan every start position of the text, threading the wordness of the
previous character (for `\b`); `f` decides a match at that position. -/
def scanPrev (f : Bool → List Char → Bool) : Bool → List Char → Bool
  | _, [] => false
  | prevW, c :: cs => f prevW (c :: cs) || scanPrev f (isWordC c) cs

/-- `re.search` of the credit-card pattern: does it match anywhere? -/
def ccDetected (s : String) : Bool :=
  scanPrev (fun prevW cs => !prevW && ccHere cs) false s.data

/-- `re.search` of the SSN pattern. -/
def ssnDetected (s : String) : Bool :=
  scanPrev (fun prevW cs => !prevW && ssnHere cs) false s.data

/-- `re.search` of the password pattern. -/
def pwDetected (s : String) : Bool :=
  scanPrev (fun _ cs => pwHere cs) false s.data

/-- `re.search` of the api-key pattern. -/
def akDetected (s : String) : Bool :=
  scanPrev (fun _ cs => akHere cs) false s.data

/-- `re.search` of the sensitive email pattern. -/
def emailSensDetected (s : String) : Bool :=
  scanPrev emailSensAt false s.data

/-- Anchored domain part `[a-zA-Z0-9.-]+\.[a-zA-Z]\{2,\}` consuming the whole
remainder (existence over the position of the final dot). -/
def validDomain (rest : List Char) : Bool :=
  (List.range (rest.length + 1)).any (fun j =>
    decide (0 < j) && (rest.take j).all isDomainC && ((rest.drop j).headD '?' == '.') &&
    (let t := (rest.drop j).tail
     decide (2 ≤ t.length) && t.all isTldC))

/-- Anchored match of `[a-zA-Z0-9._%+-]+@[a-zA-Z0-9.-]+\.[a-zA-Z]\{2,\}`
against the whole list. -/
def validCore (cs : List Char) : Bool :=
  (List.range (cs.length + 1)).any (fun i =>
    decide (0 < i) && (cs.take i).all isLocalC && ((cs.drop i).headD '?' == '@') &&
    validDomain ((cs.drop i).tail))

/-- `GuardrailsSystem._is_valid_email`: `re.match` of the anchored pattern
`^[a-zA-Z0-9._%+-]+@[a-zA-Z0-9.-]+\.[a-zA-Z]\{2,\}$`.  The `$` anchor also
matches just before a single trailing newline, so one trailing newline is
dropped before the anchored match. -/
def is_valid_email (s : String) : Bool :=
  let cs := s.data
  let core := match cs.getLast? with
    | some c => if c = '\n' then cs.dropLast else cs
    | none => cs
  validCore core

/-! ## Guardrails system state and checks (`backend/guardrails.py`) -/

/-- A warning emitted by a guardrail check.  The Python code builds formatted
strings; each constructor records the data interpolated into the
corresponding string. -/
inductive Warning where
  | sensitiveContent (patterns : List String)
  | rateLimit (reason : String)
  | invalidEmail (toAddr : String)
  | massEmail (count : Nat)
  | dangerous (reason : String)
  | sensitiveGeneric (patterns : List String)
deriving DecidableEq

/-- One entry of `GuardrailsSystem.action_history`: operation type, timestamp
(seconds), and the recipient (Python key `to`) for email sends (`none` for other entries). -/
structure ActionEntry where
  type : String
  timestamp : Nat
  recipient : Option String
deriving DecidableEq

/-- The mutable state of the `GuardrailsSystem` singleton. -/
structure GuardrailsSystem where
  triggered_guardrails : List String
  action_history : List ActionEntry
deriving DecidableEq

/-- The empty initial state built by `GuardrailsSystem.__init__`. -/
def initialGuardrails : GuardrailsSystem :=
  { triggered_guardrails := [], action_history := [] }

/-- Result of `check_sensitive_content`: the `detected` flag and the names of
the sensitive patterns with at least one match.  (The per-pattern match
counts of the Python dicts are not carried; no claim depends on them.) -/
structure SensitiveResult where
  detected : Bool
  patterns : List String
deriving DecidableEq

/-- `GuardrailsSystem.SENSITIVE_PATTERNS`, each regex replaced by its
executable matcher. -/
def SENSITIVE_PATTERNS : List (String × (String → Bool)) :=
  [("credit_card", ccDetected), ("ssn", ssnDetected), ("password", pwDetected),
   ("api_key", akDetected), ("email", emailSensDetected)]

/-- `GuardrailsSystem.check_sensitive_content`. -/
def check_sensitive_content (text : String) : SensitiveResult :=
  let detected_patterns := (SENSITIVE_PATTERNS.filter (fun p => p.2 text)).map (fun p => p.1)
  { detected := decide (0 < detected_patterns.length), patterns := detected_patterns }

/-- `GuardrailsSystem.DANGEROUS_KEYWORDS`. -/
def DANGEROUS_KEYWORDS : List String :=
  ["delete all", "remove all", "drop table", "truncate", "format drive"]

/-- Substring containment, modelling Python `needle in hay`. -/
def containsSub (needle hay : List Char) : Bool :=
  (List.range (hay.length + 1)).any (fun i => needle.isPrefixOf (hay.drop i))

/-- Model of Python `str(args)` for a dict with string keys and values:
`\x7b'k': 'v', ...\x7d`.  (Escaping of quotes inside values is not
modelled.) -/
def pyReprDict (args : List (String × String)) : String :=
  "\x7b" ++ String.intercalate ", "
    (args.map (fun kv => "\x27" ++ kv.1 ++ "\x27: \x27" ++ kv.2 ++ "\x27")) ++ "\x7d"

/-- Result of `check_dangerous_action`. -/
structure DangerResult where
  dangerous : Bool
  reason : Option String
  severity : String
deriving DecidableEq

/-- `GuardrailsSystem.check_dangerous_action`. -/
def check_dangerous_action (action : String) (args : List (String × String)) : DangerResult :=
  let action_text := (action ++ " " ++ pyReprDict args).data.map Char.toLower
  match DANGEROUS_KEYWORDS.find? (fun kw => containsSub kw.data action_text) with
  | some kw =>
    { dangerous := true, reason := some ("Contains dangerous keyword: \x27" ++ kw ++ "\x27"),
      severity := "high" }
  | none =>
    if containsSub "delete".data action.data &&
        ["all", "multiple", "batch"].any (fun k => (args.lookup k).isSome) then
      { dangerous := true, reason := some "Bulk delete operation detected", severity := "medium" }
    else if (action == "file_delete" || action == "file_write") &&
        containsSub "..".data (pyReprDict args).data then
      { dangerous := true, reason := some "Potential directory traversal attack", severity := "high" }
    else { dangerous := false, reason := none, severity := "none" }

/-- `GuardrailsSystem.RATE_LIMITS`: `(count, window)` per operation type. -/
def RATE_LIMITS (operation_type : String) : Option (Nat × Nat) :=
  if operation_type == "email_send" then some (10, 3600)
  else if operation_type == "calendar_create" then some (20, 3600)
  else if operation_type == "api_calls" then some (100, 60)
  else none

/-- Result of `check_rate_limit`; optional fields model keys absent from the
returned Python dict. -/
structure RateResult where
  allowed : Bool
  reason : Option String
  reset_time : Option Nat
  remaining : Option Nat
deriving DecidableEq

/-- `GuardrailsSystem.check_rate_limit`.  The in-window test
`(now - a["timestamp"]).total_seconds() < window` is `now - a.timestamp <
window` with truncated `Nat` subtraction, which agrees with the Python
(signed) comparison for every pair of timestamps since `window > 0`. -/
def check_rate_limit (s : GuardrailsSystem) (operation_type : String) (now : Nat) : RateResult :=
  match RATE_LIMITS operation_type with
  | none => { allowed := true, reason := some "No limit defined", reset_time := none, remaining := none }
  | some (maxCount, window) =>
    let recent := s.action_history.filter
      (fun a => a.type == operation_type && decide (now - a.timestamp < window))
    if maxCount ≤ recent.length then
      { allowed := false
        reason := some ("Rate limit exceeded: " ++ toString maxCount ++ " per " ++ toString window ++ "s")
        reset_time := recent.head?.map (fun a => a.timestamp)
        remaining := none }
    else
      { allowed := true, reason := none, reset_time := none, remaining := some (maxCount - recent.length) }

/-- Result shape shared by `check_email_send` and `apply_guardrails`:
`approved`, `warnings` (Python `None` entries modelled as `none`),
`requires_human`, and the optional `reason` key. -/
structure GuardResult where
  approved : Bool
  warnings : List (Option Warning)
  requires_human : Bool
  reason : Option String
deriving DecidableEq

/-- `re.split("[,;]", to)` followed by `.strip()` on each piece. -/
def pyStripList (cs : List Char) : List Char :=
  ((cs.dropWhile isSpaceC).reverse.dropWhile isSpaceC).reverse

/-- Python `str.strip()` on ASCII text. -/
def pyStrip (s : String) : String := ⟨pyStripList s.data⟩

/-- Split on every comma or semicolon (`re.split("[,;]", to)`). -/
def splitSepList : List Char → List (List Char)
  | [] => [[]]
  | c :: rest =>
    if c = ',' || c = ';' then [] :: splitSepList rest
    else
      match splitSepList rest with
      | [] => [[c]]
      | h :: t => (c :: h) :: t

/-- The recipient list computed by the mass-email check:
`[r.strip() for r in re.split("[,;]", to)]`. -/
def splitRecipients (toAddr : String) : List String :=
  (splitSepList toAddr.data).map (fun l => pyStrip ⟨l⟩)

/-- `GuardrailsSystem.check_email_send`, returning the result dict and the
updated system state. -/
def check_email_send (s : GuardrailsSystem) (toAddr subject body : String) (now : Nat) :
    GuardResult × GuardrailsSystem :=
  let _ := subject
  let sensitive := check_sensitive_content body
  let warnings0 : List (Option Warning) :=
    if sensitive.detected then [some (Warning.sensitiveContent sensitive.patterns)] else []
  let requires_human0 := sensitive.detected
  let rate := check_rate_limit s "email_send" now
  if !rate.allowed then
    ({ approved := false
       warnings := warnings0 ++ [some (Warning.rateLimit (rate.reason.getD ""))]
       requires_human := false
       reason := some "Rate limit exceeded" }, s)
  else if !(is_valid_email toAddr) then
    ({ approved := false
       warnings := warnings0 ++ [some (Warning.invalidEmail toAddr)]
       requires_human := false
       reason := some "Invalid recipient" }, s)
  else
    let hasSep := toAddr.data.any (fun c => c = ',' || c = ';')
    let recipients := splitRecipients toAddr
    let isMass := hasSep && decide (5 < recipients.length)
    let warnings1 :=
      if isMass then warnings0 ++ [some (Warning.massEmail recipients.length)] else warnings0
    let requires_human1 := if isMass then true else requires_human0
    ({ approved := true, warnings := warnings1, requires_human := requires_human1, reason := none },
     { s with action_history :=
         s.action_history ++ [{ type := "email_send", timestamp := now, recipient := some toAddr }] })

/-- Result of `check_calendar_operation` (the Python dict has only
`approved` and `warnings`). -/
structure CalResult where
  approved : Bool
  warnings : List (Option Warning)
deriving DecidableEq

/-- `GuardrailsSystem.check_calendar_operation`.  Note that the logged entry
has type `"calendar_create"` for every operation, and that a rate-limited
`"create"` returns before the logging step. -/
def check_calendar_operation (s : GuardrailsSystem) (operation : String)
    (args : List (String × String)) (now : Nat) : CalResult × GuardrailsSystem :=
  let _ := args
  let rate := check_rate_limit s "calendar_create" now
  if operation == "create" && !rate.allowed then
    ({ approved := false, warnings := [some (Warning.rateLimit (rate.reason.getD ""))] }, s)
  else
    ({ approved := true, warnings := [] },
     { s with action_history :=
         s.action_history ++ [{ type := "calendar_create", timestamp := now, recipient := none }] })

/-- The pattern names consulted by the `user_request` branch of
`apply_guardrails`. -/
def critical_patterns : List String := ["credit_card", "ssn", "password", "api_key"]

/-- Matcher lookup in `SENSITIVE_PATTERNS` (Python
`guardrails.SENSITIVE_PATTERNS.get(name, "")`). -/
def sensitiveMatcher (name : String) : Option (String → Bool) :=
  (SENSITIVE_PATTERNS.find? (fun p => p.1 == name)).map (fun p => p.2)

/-- `apply_guardrails` (module-level dispatcher), acting on an explicit
state.  Arguments are modelled as an association list of strings. -/
def apply_guardrails (s : GuardrailsSystem) (action : String)
    (args : List (String × String)) (now : Nat) : GuardResult × GuardrailsSystem :=
  if action == "user_request" then
    let text_to_check := (args.lookup "input").getD ""
    let dangerous := check_dangerous_action action args
    let has_critical := critical_patterns.any (fun name =>
      match sensitiveMatcher name with
      | some matcher => matcher text_to_check
      | none => false)
    ({ approved := !dangerous.dangerous && !has_critical
       reason := if dangerous.dangerous || has_critical then dangerous.reason else none
       warnings := []
       requires_human := false }, s)
  else
    let sensitive := check_sensitive_content (pyReprDict args)
    let dangerous := check_dangerous_action action args
    if action == "gmail_send_email" then
      check_email_send s ((args.lookup "to").getD "") ((args.lookup "subject").getD "")
        ((args.lookup "body").getD "") now
    else if action == "calendar_create_event" || action == "calendar_delete_event" then
      let r := check_calendar_operation s
        (if containsSub "create".data action.data then "create" else "delete") args now
      ({ approved := r.1.approved, warnings := r.1.warnings, requires_human := false, reason := none },
       r.2)
    else
      ({ approved := !dangerous.dangerous && !sensitive.detected
         warnings := [(if dangerous.dangerous then dangerous.reason.map Warning.dangerous else none),
                      (if sensitive.detected then some (Warning.sensitiveGeneric sensitive.patterns) else none)]
         requires_human := dangerous.dangerous || sensitive.detected
         reason := none }, s)

/-! ## JSON extraction (`backend/utils.py`) -/

/-- JSON values, as produced by Python `json.loads` on the fragment modelled
here (objects, arrays, strings without escape sequences, integers, booleans,
null; floats and string escapes are outside the model, and duplicate object
keys are kept in order rather than collapsed). -/
inductive Json where
  | null
  | bool (b : Bool)
  | num (n : Int)
  | str (s : String)
  | arr (xs : List Json)
  | obj (kvs : List (String × Json))

/-- JSON insignificant whitespace (` \t\n\r`). -/
def isJsonWs (c : Char) : Bool := c = ' ' || c = '\t' || c = '\n' || c = '\r'

/-- Body of a JSON string after the opening quote; escape sequences are not
modelled (a backslash fails the parse). -/
def parseStringBody : List Char → Option (String × List Char)
  | [] => none
  | c :: rest =>
    if c = '"' then some ("", rest)
    else if c = '\\' then none
    else (parseStringBody rest).map (fun p => (⟨c :: p.1.data⟩, p.2))

/-- A JSON natural-number literal: at least one digit, no redundant leading
zero. -/
def parseNatLit (cs : List Char) : Option (Nat × List Char) :=
  let ds := cs.takeWhile Char.isDigit
  if ds.isEmpty then none
  else if ds.headD '0' = '0' && decide (1 < ds.length) then none
  else some (ds.foldl (fun acc c => acc * 10 + (c.toNat - 48)) 0, cs.drop ds.length)

mutual

/-- Parse one JSON value (leading whitespace allowed), with fuel. -/
def parseValue : Nat → List Char → Option (Json × List Char)
  | 0, _ => none
  | f + 1, cs0 =>
    let cs := cs0.dropWhile isJsonWs
    match cs with
    | [] => none
    | c :: rest =>
      if c = '\x7b' then
        match rest.dropWhile isJsonWs with
        | '\x7d' :: r2 => some (Json.obj [], r2)
        | r => parseObjRest f r []
      else if c = '[' then
        match rest.dropWhile isJsonWs with
        | ']' :: r2 => some (Json.arr [], r2)
        | r => parseArrRest f r []
      else if c = '"' then (parseStringBody rest).map (fun p => (Json.str p.1, p.2))
      else if c = '-' then (parseNatLit rest).map (fun p => (Json.num (-(p.1 : Int)), p.2))
      else if "true".data.isPrefixOf cs then some (Json.bool true, cs.drop 4)
      else if "false".data.isPrefixOf cs then some (Json.bool false, cs.drop 5)
      else if "null".data.isPrefixOf cs then some (Json.null, cs.drop 4)
      else (parseNatLit cs).map (fun p => (Json.num (p.1 : Int), p.2))

/-- Parse the members of an object, positioned at a key (whitespace already
skipped), accumulating parsed members. -/
def parseObjRest : Nat → List Char → List (String × Json) → Option (Json × List Char)
  | 0, _, _ => none
  | f + 1, cs, acc =>
    match cs with
    | '"' :: rest =>
      match parseStringBody rest with
      | none => none
      | some (key, r1) =>
        match r1.dropWhile isJsonWs with
        | ':' :: r2 =>
          match parseValue f r2 with
          | none => none
          | some (v, r3) =>
            match r3.dropWhile isJsonWs with
            | ',' :: r4 => parseObjRest f (r4.dropWhile isJsonWs) (acc ++ [(key, v)])
            | '\x7d' :: r4 => some (Json.obj (acc ++ [(key, v)]), r4)
            | _ => none
        | _ => none
    | _ => none

/-- Parse the elements of an array, positioned at an element. -/
def parseArrRest : Nat → List Char → List Json → Option (Json × List Char)
  | 0, _, _ => none
  | f + 1, cs, acc =>
    match parseValue f cs with
    | none => none
    | some (v, r1) =>
      match r1.dropWhile isJsonWs with
      | ',' :: r2 => parseArrRest f r2 (acc ++ [v])
      | ']' :: r2 => some (Json.arr (acc ++ [v]), r2)
      | _ => none

end

/-- Model of Python `json.loads` on the fragment described at `Json`:
parse one value and require only whitespace to remain. -/
def jsonLoads (s : String) : Option Json :=
  match parseValue (s.length + 1) s.data with
  | none => none
  | some (v, rest) => if (rest.dropWhile isJsonWs).isEmpty then some v else none

/-- Attempt of the fence-opening pattern ` ```(json)?\s*\n ` at a line start:
on success, return the text following the removed match (greedy `\s*`
consumes through the last newline of the leading whitespace run). -/
def fenceOpenMatch (cs : List Char) : Option (List Char) :=
  match cs with
  | '\x60' :: '\x60' :: '\x60' :: r1 =>
    let r2 := if "json".data.isPrefixOf r1 then r1.drop 4 else r1
    let run := r2.takeWhile isSpaceC
    let k := run.reverse.findIdx (fun c => c = '\n')
    if k < run.length then some (r2.drop (run.length - k)) else none
  | _ => none

/-- `re.sub(r"^```(?:json)?\s*\n", "", text, flags=re.MULTILINE)`:
left-to-right non-overlapping removal at line starts. -/
def fenceOpenSub : Nat → Bool → List Char → List Char
  | 0, _, cs => cs
  | f + 1, atStart, cs =>
    match cs with
    | [] => []
    | c :: rest =>
      if atStart then
        match fenceOpenMatch cs with
        | some r => fenceOpenSub f true r
        | none => c :: fenceOpenSub f (c = '\n') rest
      else c :: fenceOpenSub f (c = '\n') rest

/-- Attempt of the fence-closing pattern ` \n```\s*$ ` (MULTILINE `$`):
on success, return the remainder (which keeps the newline before which `$`
matched, if any). -/
def fenceCloseMatch (cs : List Char) : Option (List Char) :=
  match cs with
  | '\n' :: '\x60' :: '\x60' :: '\x60' :: r1 =>
    let run := r1.takeWhile isSpaceC
    if (r1.drop run.length).isEmpty then some []
    else
      let k := run.reverse.findIdx (fun c => c = '\n')
      if k < run.length then some (r1.drop (run.length - 1 - k)) else none
  | _ => none

/-- `re.sub(r"\n```\s*$", "", text, flags=re.MULTILINE)`. -/
def fenceCloseSub : Nat → List Char → List Char
  | 0, cs => cs
  | f + 1, cs =>
    match cs with
    | [] => []
    | c :: rest =>
      match fenceCloseMatch cs with
      | some r => fenceCloseSub f r
      | none => c :: fenceCloseSub f rest

/-- Split at the first occurrence of `c`: `cs = before ++ c :: after` with
`c ∉ before`. -/
def splitFirst (c : Char) : List Char → Option (List Char × List Char)
  | [] => none
  | x :: xs => if x = c then some ([], xs) else (splitFirst c xs).map (fun p => (x :: p.1, p.2))

/-- `re.search(r"\{.*\}", text, re.DOTALL)`: if some opening brace is
followed by some closing brace, the greedy match runs from the first `\x7b`
to the last `\x7d`; the code replaces the text by the matched span.  With no
match the text is unchanged. -/
def reSearchBraces (cs : List Char) : List Char :=
  match splitFirst '\x7b' cs with
  | none => cs
  | some (_, rest) =>
    match splitFirst '\x7d' rest.reverse with
    | none => cs
    | some (_, revMid) => '\x7b' :: (revMid.reverse ++ ['\x7d'])

/-- The fallback slice `text[text.find("\x7b") : text.rfind("\x7d") + 1]`,
or `none` when either brace is absent (Python `find` returning `-1`). -/
def fallbackSlice (cs : List Char) : Option (List Char) :=
  match splitFirst '\x7b' cs with
  | none => none
  | some (pre, _) =>
    match splitFirst '\x7d' cs.reverse with
    | none => none
    | some (revAfter, _) =>
      some ((cs.take (cs.length - revAfter.length)).drop pre.length)

/-- The text handed to the brace search: the input stripped, with markdown
fences removed, stripped again (lines 27–32 of `utils.py`). -/
def preprocessed (response_text : String) : List Char :=
  let text0 := pyStripList response_text.data
  let text1 := fenceOpenSub text0.length true text0
  let text2 := fenceCloseSub text1.length text1
  pyStripList text2

/-- `extract_json_from_response`: strip, remove markdown fences, isolate a
brace-to-brace span, parse, and on failure retry on the first-to-last-brace
slice; `none` models the `json.JSONDecodeError` propagating to the caller. -/
def extract_json_from_response (response_text : String) : Option Json :=
  let text3 := preprocessed response_text
  let text4 := reSearchBraces text3
  match jsonLoads ⟨text4⟩ with
  | some v => some v
  | none =>
    match fallbackSlice text4 with
    | none => none
    | some sl => jsonLoads ⟨sl⟩

/-! ## Task agent (`backend/agents/task_agent.py`) -/

/-- The fields of a task record consulted by `identify_blockers`. -/
structure Task where
  id : String
  title : String
  status : String
  dependencies : List String
deriving DecidableEq

/-- A `blocked_tasks` record. -/
structure BlockedRecord where
  task_id : String
  task_title : String
  blocked_by : List String
deriving DecidableEq

/-- A `blocking_tasks` record. -/
structure BlockingRecord where
  task_id : String
  task_title : String
  blocking_count : Nat
deriving DecidableEq

/-- The `blocker_analysis` result of `identify_blockers`. -/
structure BlockerAnalysis where
  blocking_tasks : List BlockingRecord
  blocked_tasks : List BlockedRecord
  critical_path : List String
deriving DecidableEq

/-- The `incomplete_deps` filter: dependencies `dep` such that some task with
id `dep` has a status other than `"completed"`. -/
def incompleteDeps (tasks : List Task) (task : Task) : List String :=
  task.dependencies.filter (fun dep =>
    tasks.any (fun t => t.id == dep && !(t.status == "completed")))

/-- `TaskAgent.identify_blockers`.  Python collects the dependency ids in a
`set`, whose iteration order is unspecified; the model uses first-occurrence
order (`dedup` of the concatenation), which fixes one admissible order. -/
def identify_blockers (tasks : List Task) : BlockerAnalysis :=
  let blocked := tasks.filterMap (fun task =>
    if task.dependencies.isEmpty then none
    else
      let inc := incompleteDeps tasks task
      if inc.isEmpty then none
      else some { task_id := task.id, task_title := task.title, blocked_by := inc })
  let all_deps := ((tasks.map (fun t => t.dependencies)).flatten).dedup
  let blocking := all_deps.filterMap (fun dep =>
    match tasks.find? (fun t => t.id == dep) with
    | none => none
    | some t =>
      if t.status == "completed" then none
      else some { task_id := t.id, task_title := t.title,
                  blocking_count := (tasks.filter (fun u => u.dependencies.contains dep)).length })
  { blocking_tasks := blocking, blocked_tasks := blocked, critical_path := [] }

/-- The pieces of a per-task prioritization result used by the final sort of
`TaskAgent.prioritize_tasks`: the `priority` bucket and the
`urgency_score`. -/
structure PrioritizedTask where
  priority : String
  urgency_score : Int
deriving DecidableEq

/-- `priority_order.get(priority, 2)` with
`priority_order = \x7b"urgent": 0, "high": 1, "medium": 2, "low": 3\x7d`. -/
def priority_order (p : String) : Nat :=
  if p == "urgent" then 0
  else if p == "high" then 1
  else if p == "medium" then 2
  else if p == "low" then 3
  else 2

/-- The sort key `(priority_order.get(priority, 2), -urgency_score)`. -/
def sortKey (x : PrioritizedTask) : Nat × Int :=
  (priority_order x.priority, -x.urgency_score)

/-- Lexicographic comparison of sort keys, as Python compares key tuples. -/
def keyLe (x y : PrioritizedTask) : Bool :=
  decide (priority_order x.priority < priority_order y.priority) ||
  (decide (priority_order x.priority = priority_order y.priority) &&
   decide (-x.urgency_score ≤ -y.urgency_score))

/-- The final sort of `TaskAgent.prioritize_tasks` (`list.sort` is a stable
sort by the key; modelled by the stable `List.mergeSort`). -/
def prioritize_sort (l : List PrioritizedTask) : List PrioritizedTask :=
  l.mergeSort keyLe

/-! ## Router loop check (`backend/orchestrator_modern.py`) -/

/-- `AgentRouter.check_loop`: `true` means a loop is detected and the
candidate agent is rejected. -/
def check_loop (current_agent : String) (delegation_history : List String) : Bool :=
  if delegation_history.isEmpty then false
  else if delegation_history.getLast? == some current_agent then true
  else if 2 ≤ delegation_history.length &&
      delegation_history[delegation_history.length - 2]? == some current_agent then true
  else if 2 ≤ delegation_history.count current_agent then true
  else false

/-! ## Calendar free slots (`backend/tools/calendar_tools.py`) -/

/-- The gap-accumulation core of `calendar_find_free_slots`, on events given
as `(start, end)` pairs in minutes since midnight, already sorted by start
time (the API call requests `orderBy="startTime"`).  The scan window is
09:00–17:00; a gap qualifies when it is at least `duration_minutes` long
(the Python comparison `(gap seconds)/60 >= duration` is exact here). -/
def find_free_slots_from (events : List (Nat × Nat)) (duration_minutes : Nat) :
    List (Nat × Nat) :=
  let dayStart : Nat := 9 * 60
  let dayEnd : Nat := 17 * 60
  let step := fun (acc : List (Nat × Nat) × Nat) (ev : Nat × Nat) =>
    let slots :=
      if (duration_minutes : Int) ≤ (ev.1 : Int) - (acc.2 : Int) then acc.1 ++ [(acc.2, ev.1)]
      else acc.1
    (slots, max acc.2 ev.2)
  let fin := events.foldl step ([], dayStart)
  if (duration_minutes : Int) ≤ (dayEnd : Int) - (fin.2 : Int) then fin.1 ++ [(fin.2, dayEnd)]
  else fin.1

/-! ## Auxiliary definitions used by the theorems -/

/-- Iterated email-send checks: the state after running `check_email_send`
once per entry of `times` (in order), threading the state. -/
def emailSendRun (toAddr subject body : String) (times : List Nat) (s : GuardrailsSystem) :
    GuardrailsSystem :=
  times.foldl (fun st t => (check_email_send st toAddr subject body t).2) s

/-- A guardrails state whose history holds 20 in-window `calendar_create`
entries (the calendar-create limit). -/
def cal20State : GuardrailsSystem :=
  { triggered_guardrails := [],
    action_history :=
      (List.range 20).map (fun i => { type := "calendar_create", timestamp := i, recipient := none }) }

/-- The task set of the blocker-analysis scenario: A complete, B depending
on A, C depending on B (the spec's "done" status is the `completed` status
of the data model). -/
def c7Tasks : List Task :=
  [⟨"A", "Task A", "completed", []⟩, ⟨"B", "Task B", "todo", ["A"]⟩, ⟨"C", "Task C", "todo", ["B"]⟩]

/-- No opening brace is followed (anywhere later) by a closing brace. -/
def noBracePair (cs : List Char) : Prop :=
  ¬ List.Sublist ['\x7b', '\x7d'] cs

instance (cs : List Char) : Decidable (noBracePair cs) := by
  unfold noBracePair; infer_instance

/-! ## Theorems -/

/-- `keyLe` is transitive. -/
theorem keyLe_trans : ∀ a b c : PrioritizedTask,
    keyLe a b = true → keyLe b c = true → keyLe a c = true := by
  intro a b c
  simp only [keyLe, Bool.or_eq_true, Bool.and_eq_true, decide_eq_true_eq]
  omega

/-- `keyLe` is total. -/
theorem keyLe_total : ∀ a b : PrioritizedTask, (keyLe a b || keyLe b a) = true := by
  intro a b
  simp only [keyLe, Bool.or_eq_true, Bool.and_eq_true, decide_eq_true_eq]
  omega

/-- C3 (counterexample): on a 09:00–17:00 day (minutes 540–1020) with the
single event 10:00–11:00 (600–660), the 90-minute request does *not* return
two windows, and the 30-minute request does *not* return three windows. -/
theorem c3_free_slots_counterexample :
    (find_free_slots_from [(600, 660)] 90).length ≠ 2 ∧
    (find_free_slots_from [(600, 660)] 30).length ≠ 3 := by
  decide

/-- C3 (amended): with the single event 10:00–11:00, a 90-minute request
returns exactly one window — 09:00–10:00 is excluded as too short and
11:00–17:00 is the single six-hour slot — and a 30-minute request returns
exactly the two windows 09:00–10:00 and 11:00–17:00. -/
theorem c3_free_slots :
    find_free_slots_from [(600, 660)] 90 = [(660, 1020)] ∧
    find_free_slots_from [(600, 660)] 30 = [(540, 600), (660, 1020)] := by
  decide

/-- C5 (counterexample): with 20 in-window `calendar_create` entries, a
blocked `"create"` call does *not* append to the action history — the state
is returned unchanged, so the action is not logged "regardless of approval
outcome". -/
theorem c5_calendar_log_counterexample :
    (check_calendar_operation cal20State "create" [] 19).1.approved = false ∧
    (check_calendar_operation cal20State "create" [] 19).2 = cal20State := by
  decide

/-- C5 (amended): `check_calendar_operation` appends one `calendar_create`
entry exactly when the call is approved; a `"create"` blocked by the
calendar-create rate limit returns `approved = false` and leaves the state
(hence the history) unchanged. -/
theorem c5_calendar_log :
    ∀ (s : GuardrailsSystem) (op : String) (args : List (String × String)) (now : Nat),
      ((check_calendar_operation s op args now).1.approved = true ∧
       (check_calendar_operation s op args now).2.action_history =
         s.action_history ++ [{ type := "calendar_create", timestamp := now, recipient := none }]) ∨
      (op = "create" ∧ (check_rate_limit s "calendar_create" now).allowed = false ∧
       (check_calendar_operation s op args now).1.approved = false ∧
       (check_calendar_operation s op args now).2 = s) := by
  intro s op args now
  unfold check_calendar_operation
  by_cases hc : (op == "create" && !(check_rate_limit s "calendar_create" now).allowed) = true
  · right
    simp only [Bool.and_eq_true, beq_iff_eq, Bool.not_eq_true'] at hc
    simp [hc.1, hc.2]
  · left
    simp [hc]

/-- C7: on tasks A (complete, no dependencies), B (depends on A, todo),
C (depends on B, todo), the blocker analysis reports exactly: C blocked by
B, and B blocking with count 1 — in particular B is not reported as blocked
(A is complete) and A is not reported as blocking. -/
theorem c7_identify_blockers :
    identify_blockers c7Tasks =
      { blocking_tasks := [{ task_id := "B", task_title := "Task B", blocking_count := 1 }],
        blocked_tasks := [{ task_id := "C", task_title := "Task C", blocked_by := ["B"] }],
        critical_path := [] } := by
  decide

/-- C8: the final ordering of `prioritize_tasks` is a permutation of its
input sorted by (priority bucket urgent < high < medium < low, then
descending urgency score); on the batch medium(5), urgent(3), high(9) the
output order is urgent(3), high(9), medium(5). -/
theorem c8_prioritize_sort :
    (∀ l : List PrioritizedTask,
        (prioritize_sort l).Perm l ∧
        (prioritize_sort l).Pairwise (fun a b => keyLe a b = true)) ∧
    prioritize_sort [⟨"medium", 5⟩, ⟨"urgent", 3⟩, ⟨"high", 9⟩] =
      [⟨"urgent", 3⟩, ⟨"high", 9⟩, ⟨"medium", 5⟩] := by
  constructor
  · intro l
    exact ⟨List.mergeSort_perm l keyLe, List.sorted_mergeSort keyLe_trans keyLe_total l⟩
  · unfold prioritize_sort
    simp [List.mergeSort, List.merge, keyLe, priority_order]

/-- C9: the router loop check rejects a candidate exactly when it equals the
last agent of the delegation history, or the agent two steps back, or
already occurs at least twice; in particular `email` is rejected for
histories `[email, calendar, email]` and `[email, calendar]` and accepted
for `[calendar]`. -/
theorem c9_check_loop :
    (∀ (c : String) (h : List String),
        check_loop c h = true ↔
          (h.getLast? = some c ∨
           (2 ≤ h.length ∧ h[h.length - 2]? = some c) ∨
           2 ≤ h.count c)) ∧
    check_loop "email" ["email", "calendar", "email"] = true ∧
    check_loop "email" ["email", "calendar"] = true ∧
    check_loop "email" ["calendar"] = false := by
  refine ⟨fun c h => ?_, by decide, by decide, by decide⟩
  unfold check_loop
  split_ifs with h0 h1 h2 h3 <;> simp_all [List.isEmpty_iff, beq_iff_eq]

/-- C10: a `check_email_send` call that returns `approved = false` (rate
limit exceeded or invalid recipient) leaves the guardrails state unchanged —
blocked attempts consume no rate budget — and an approved call appends
exactly one `email_send` history entry. -/
theorem c10_email_history :
    ∀ (s : GuardrailsSystem) (toAddr subject body : String) (now : Nat),
      ((check_email_send s toAddr subject body now).1.approved = false →
        (check_email_send s toAddr subject body now).2 = s) ∧
      ((check_email_send s toAddr subject body now).1.approved = true →
        (check_email_send s toAddr subject body now).2.action_history =
          s.action_history ++
            [{ type := "email_send", timestamp := now, recipient := some toAddr }]) := by
  intro s toAddr subject body now
  unfold check_email_send
  by_cases hr : (check_rate_limit s "email_send" now).allowed
  · by_cases hv : is_valid_email toAddr
    · simp [hr, hv]
    · simp [hr, hv]
  · simp [hr]

/-- C10 (witness): a concrete approved send from the empty state appends its
history entry. -/
theorem c10_email_history_witness :
    (check_email_send initialGuardrails "a@b.cc" "s" "hi" 5).2.action_history =
      initialGuardrails.action_history ++
        [{ type := "email_send", timestamp := 5, recipient := some "a@b.cc" }] :=
  (c10_email_history initialGuardrails "a@b.cc" "s" "hi" 5).2 (by decide)

/-- A list whose default-`?` head equals `a ≠ '?'` is `a` consed on its
tail. -/
theorem headD_q_eq {cs : List Char} {a : Char} (ha : a ≠ '?') (h : cs.headD '?' = a) :
    cs = a :: cs.tail := by
  cases cs with
  | nil => exact absurd h.symm ha
  | cons c t => simp_all

/-- Domain characters are local characters. -/
theorem isDomainC_localC {c : Char} (h : isDomainC c = true) : isLocalC c = true := by
  simp only [isDomainC, isLocalC, Bool.or_eq_true] at *
  tauto

/-- Letters are local characters. -/
theorem isAlpha_localC {c : Char} (h : c.isAlpha = true) : isLocalC c = true := by
  simp only [isLocalC, Bool.or_eq_true]
  tauto

/-- Every character of a string accepted by the anchored domain pattern is a
local character. -/
theorem validDomain_chars {rest : List Char} (h : validDomain rest = true) :
    ∀ c ∈ rest, isLocalC c = true := by
  unfold validDomain at h
  rw [List.any_eq_true] at h
  obtain ⟨j, hj, hcond⟩ := h
  simp only [Bool.and_eq_true, decide_eq_true_eq, beq_iff_eq, List.all_eq_true] at hcond
  obtain ⟨⟨⟨hpos, hdomain⟩, hdot⟩, h2len, htld⟩ := hcond
  have hdrop : rest.drop j = '.' :: (rest.drop j).tail := headD_q_eq (by decide) hdot
  intro c hc
  rw [← List.take_append_drop j rest] at hc
  rcases List.mem_append.mp hc with h1 | h2
  · exact isDomainC_localC (hdomain c h1)
  · rw [hdrop] at h2
    rcases List.mem_cons.mp h2 with h3 | h4
    · subst h3
      decide
    · exact isAlpha_localC (htld c h4)

/-- Every character of a string accepted by the anchored email pattern is a
local character or the `@` sign. -/
theorem validCore_chars {cs : List Char} (h : validCore cs = true) :
    ∀ c ∈ cs, isLocalC c = true ∨ c = '@' := by
  unfold validCore at h
  rw [List.any_eq_true] at h
  obtain ⟨i, hi, hcond⟩ := h
  simp only [Bool.and_eq_true, decide_eq_true_eq, beq_iff_eq, List.all_eq_true] at hcond
  obtain ⟨⟨⟨hpos, hlocal⟩, hat⟩, hdom⟩ := hcond
  have hdrop : cs.drop i = '@' :: (cs.drop i).tail := headD_q_eq (by decide) hat
  intro c hc
  rw [← List.take_append_drop i cs] at hc
  rcases List.mem_append.mp hc with h1 | h2
  · exact Or.inl (hlocal c h1)
  · rw [hdrop] at h2
    rcases List.mem_cons.mp h2 with h3 | h4
    · exact Or.inr h3
    · exact Or.inl (validDomain_chars hdom c h4)

/-- Every character of a recipient accepted by `_is_valid_email` is a local
character, the `@` sign, or the optional trailing newline. -/
theorem valid_email_chars {s : String} (h : is_valid_email s = true) :
    ∀ c ∈ s.data, isLocalC c = true ∨ c = '@' ∨ c = '\n' := by
  unfold is_valid_email at h
  dsimp only at h
  intro c hc
  cases hlast : s.data.getLast? with
  | none =>
    rw [hlast] at h
    dsimp only at h
    rcases validCore_chars h c hc with h1 | h2
    · exact Or.inl h1
    · exact Or.inr (Or.inl h2)
  | some a =>
    rw [hlast] at h
    dsimp only at h
    by_cases ha : a = '\n'
    · subst ha
      rw [if_pos rfl] at h
      have hne : s.data ≠ [] := by
        intro hnil
        rw [hnil] at hlast
        exact Option.noConfusion hlast
      have hsplit := List.dropLast_append_getLast hne
      rw [← hsplit] at hc
      rcases List.mem_append.mp hc with h1 | h2
      · rcases validCore_chars h c h1 with hx | hy
        · exact Or.inl hx
        · exact Or.inr (Or.inl hy)
      · have hcl : c = s.data.getLast hne := List.mem_singleton.mp h2
        have hgl : some (s.data.getLast hne) = some '\n' := by
          rw [← List.getLast?_eq_getLast s.data hne]
          exact hlast
        exact Or.inr (Or.inr (hcl.trans (Option.some_injective _ hgl)))
    · rw [if_neg ha] at h
      rcases validCore_chars h c hc with h1 | h2
      · exact Or.inl h1
      · exact Or.inr (Or.inl h2)

/-- A recipient containing a character that is not local, not `@` and not a
newline fails `_is_valid_email`. -/
theorem sep_not_valid : ∀ (s : String) (sep : Char), sep ∈ s.data →
    isLocalC sep = false → sep ≠ '@' → sep ≠ '\n' → is_valid_email s = false := by
  intro s sep hmem h1 h2 h3
  by_contra hcon
  rw [Bool.not_eq_false] at hcon
  rcases valid_email_chars hcon sep hmem with hx | hy | hz
  · rw [h1] at hx
    exact Bool.noConfusion hx
  · exact h2 hy
  · exact h3 hz

/-- C4 (counterexample): a recipient string holding six comma-separated
addresses is *not* flagged `requires_human = true` — the call is blocked
outright as an invalid recipient with `requires_human = false`. -/
theorem c4_mass_email_counterexample :
    (check_email_send initialGuardrails "a@b.cc,c@d.cc,e@f.cc,g@h.cc,i@j.cc,k@l.cc"
        "s" "hi" 0).1.requires_human = false ∧
    (check_email_send initialGuardrails "a@b.cc,c@d.cc,e@f.cc,g@h.cc,i@j.cc,k@l.cc"
        "s" "hi" 0).1.approved = false ∧
    5 < (splitRecipients "a@b.cc,c@d.cc,e@f.cc,g@h.cc,i@j.cc,k@l.cc").length := by
  decide

/-- C4 (amended): any recipient string containing a comma or semicolon (in
particular one listing more than 5 comma/semicolon-separated recipients)
fails the email-shape validation, so — once past the rate limit — the call
is blocked with reason "Invalid recipient" and `requires_human = false`; the
mass-email branch is unreachable. -/
theorem c4_mass_email :
    ∀ (s : GuardrailsSystem) (toAddr subject body : String) (now : Nat),
      (',' ∈ toAddr.data ∨ ';' ∈ toAddr.data) →
      (check_rate_limit s "email_send" now).allowed = true →
      (check_email_send s toAddr subject body now).1.approved = false ∧
      (check_email_send s toAddr subject body now).1.requires_human = false ∧
      (check_email_send s toAddr subject body now).1.reason = some "Invalid recipient" ∧
      (check_email_send s toAddr subject body now).2 = s := by
  intro s toAddr subject body now hsep hrate
  have hinv : is_valid_email toAddr = false := by
    rcases hsep with h | h
    · exact sep_not_valid _ _ h (by decide) (by decide) (by decide)
    · exact sep_not_valid _ _ h (by decide) (by decide) (by decide)
  unfold check_email_send
  simp [hrate, hinv]

/-- C4 (witness): the amended claim applied to the concrete six-recipient
string from the empty state. -/
theorem c4_mass_email_witness :
    (check_email_send initialGuardrails "a@b.cc,c@d.cc,e@f.cc,g@h.cc,i@j.cc,k@l.cc"
        "s" "hi" 0).1.approved = false ∧
    (check_email_send initialGuardrails "a@b.cc,c@d.cc,e@f.cc,g@h.cc,i@j.cc,k@l.cc"
        "s" "hi" 0).1.requires_human = false ∧
    (check_email_send initialGuardrails "a@b.cc,c@d.cc,e@f.cc,g@h.cc,i@j.cc,k@l.cc"
        "s" "hi" 0).1.reason = some "Invalid recipient" ∧
    (check_email_send initialGuardrails "a@b.cc,c@d.cc,e@f.cc,g@h.cc,i@j.cc,k@l.cc"
        "s" "hi" 0).2 = initialGuardrails :=
  c4_mass_email initialGuardrails "a@b.cc,c@d.cc,e@f.cc,g@h.cc,i@j.cc,k@l.cc" "s" "hi" 0
    (Or.inl (by decide)) (by decide)

/-- A credit-card match on the text makes `check_sensitive_content` report a
detection. -/
theorem cc_detected_sensitive {text : String} (h : ccDetected text = true) :
    (check_sensitive_content text).detected = true := by
  unfold check_sensitive_content SENSITIVE_PATTERNS
  simp [List.filter_cons, h]

/-- C2: for a text containing a credit-card-shaped number, the
`"user_request"` path of `apply_guardrails` rejects (`approved = false`),
while `check_email_send` with the same text as body, a valid single
recipient and the rate limit not exceeded approves with
`requires_human = true` and a sensitive-content warning — the two paths
diverge. -/
theorem c2_credit_card_paths :
    ∀ (text toAddr subject : String) (s : GuardrailsSystem) (now : Nat),
      ccDetected text = true →
      is_valid_email toAddr = true →
      (check_rate_limit s "email_send" now).allowed = true →
      (apply_guardrails s "user_request" [("input", text)] now).1.approved = false ∧
      (check_email_send s toAddr subject text now).1.approved = true ∧
      (check_email_send s toAddr subject text now).1.requires_human = true ∧
      some (Warning.sensitiveContent (check_sensitive_content text).patterns) ∈
        (check_email_send s toAddr subject text now).1.warnings := by
  intro text toAddr subject s now hcc hvalid hrate
  have hdet : (check_sensitive_content text).detected = true := cc_detected_sensitive hcc
  refine ⟨?_, ?_, ?_, ?_⟩
  · unfold apply_guardrails
    simp only [beq_self_eq_true, if_true]
    simp
    intro _
    exact ⟨"credit_card", by simp [critical_patterns],
           by simp [sensitiveMatcher, SENSITIVE_PATTERNS, hcc]⟩
  · unfold check_email_send
    simp [hrate, hvalid]
  · unfold check_email_send
    simp [hrate, hvalid, hdet]
  · unfold check_email_send
    simp only [hdet, if_true, hrate, Bool.not_true, Bool.false_eq_true, if_false, hvalid]
    split <;> simp

/-- C2 (witness): the divergence on the concrete credit-card text
`"1234 5678 9012 3456"` with recipient `a@b.cc` from the empty state. -/
theorem c2_credit_card_paths_witness :
    (apply_guardrails initialGuardrails "user_request"
        [("input", "1234 5678 9012 3456")] 0).1.approved = false ∧
    (check_email_send initialGuardrails "a@b.cc" "s" "1234 5678 9012 3456" 0).1.approved = true ∧
    (check_email_send initialGuardrails "a@b.cc" "s" "1234 5678 9012 3456" 0).1.requires_human
      = true ∧
    some (Warning.sensitiveContent (check_sensitive_content "1234 5678 9012 3456").patterns) ∈
      (check_email_send initialGuardrails "a@b.cc" "s" "1234 5678 9012 3456" 0).1.warnings :=
  c2_credit_card_paths "1234 5678 9012 3456" "a@b.cc" "s" initialGuardrails 0
    (by decide) (by decide) (by decide)

/-- The email-send rate limit allows any state whose whole history is
shorter than the limit of 10. -/
theorem rate_allowed_of_short {s : GuardrailsSystem} {now : Nat}
    (h : s.action_history.length < 10) :
    (check_rate_limit s "email_send" now).allowed = true := by
  unfold check_rate_limit RATE_LIMITS
  simp only [beq_self_eq_true, if_true]
  have hle := List.length_filter_le
    (fun a => a.type == "email_send" && decide (now - a.timestamp < 3600)) s.action_history
  rw [if_neg (by omega)]

/-- An email-send check with the rate limit clear and a valid recipient is
approved. -/
theorem check_email_send_approved {s : GuardrailsSystem} {toAddr subject body : String} {now : Nat}
    (hrate : (check_rate_limit s "email_send" now).allowed = true)
    (hvalid : is_valid_email toAddr = true) :
    (check_email_send s toAddr subject body now).1.approved = true := by
  unfold check_email_send
  simp [hrate, hvalid]

/-- An approved email-send check appends exactly one history entry. -/
theorem check_email_send_state_approved {s : GuardrailsSystem}
    {toAddr subject body : String} {now : Nat}
    (hrate : (check_rate_limit s "email_send" now).allowed = true)
    (hvalid : is_valid_email toAddr = true) :
    (check_email_send s toAddr subject body now).2 =
      { s with action_history := s.action_history ++
          [{ type := "email_send", timestamp := now, recipient := some toAddr }] } := by
  unfold check_email_send
  simp [hrate, hvalid]

/-- A rate-limited email-send check (with a clean body) returns the blocked
result unchanged state, reason and single rate-limit warning. -/
theorem check_email_send_blocked (s : GuardrailsSystem)
    (toAddr subject body : String) (now : Nat)
    (hrate : (check_rate_limit s "email_send" now).allowed = false)
    (hsens : (check_sensitive_content body).detected = false) :
    check_email_send s toAddr subject body now =
      ({ approved := false,
         warnings := [some (Warning.rateLimit
           ((check_rate_limit s "email_send" now).reason.getD ""))],
         requires_human := false,
         reason := some "Rate limit exceeded" }, s) := by
  unfold check_email_send
  simp [hrate, hsens]

/-- After `k ≤ 10` email-send checks from the empty state (valid recipient),
the history holds exactly the `k` corresponding `email_send` entries in call
order. -/
theorem emailSendRun_history
    (toAddr subject body : String) (t : Nat → Nat) (hvalid : is_valid_email toAddr = true) :
    ∀ k, k ≤ 10 →
      (emailSendRun toAddr subject body ((List.range k).map t) initialGuardrails).action_history =
        (List.range k).map
          (fun i => { type := "email_send", timestamp := t i, recipient := some toAddr }) := by
  intro k
  induction k with
  | zero => intro _; rfl
  | succ n ih =>
    intro hk
    have hn := ih (by omega)
    rw [List.range_succ, List.map_append, List.map_append]
    unfold emailSendRun at hn ⊢
    rw [List.foldl_append]
    simp only [List.map_cons, List.map_nil, List.foldl_cons, List.foldl_nil]
    have hlen : (((List.range n).map t).foldl
        (fun st t2 => (check_email_send st toAddr subject body t2).2)
        initialGuardrails).action_history.length < 10 := by
      rw [hn]
      simp only [List.length_map, List.length_range]
      omega
    rw [check_email_send_state_approved (rate_allowed_of_short hlen) hvalid]
    simp [hn]

/-- C1: from an empty history, with a valid single recipient and a clean
body, the first 10 email-send checks are all approved; the 11th inside the
same 3600-second window is blocked with reason "Rate limit exceeded", a
warning citing the limit, and the rate check reporting the earliest
in-window timestamp `t 0` as the reset time; and a later call made when
every history entry is at least 3600 seconds old is approved again. -/
theorem c1_email_rate_limit :
    ∀ (toAddr subject body : String) (t : Nat → Nat),
      is_valid_email toAddr = true →
      (check_sensitive_content body).detected = false →
      (∀ i j, i ≤ j → t i ≤ t j) →
      t 10 - t 0 < 3600 →
      (∀ k, k < 10 →
        (check_email_send
            (emailSendRun toAddr subject body ((List.range k).map t) initialGuardrails)
            toAddr subject body (t k)).1.approved = true) ∧
      (check_email_send (emailSendRun toAddr subject body ((List.range 10).map t) initialGuardrails)
          toAddr subject body (t 10)).1 =
        { approved := false,
          warnings := [some (Warning.rateLimit "Rate limit exceeded: 10 per 3600s")],
          requires_human := false,
          reason := some "Rate limit exceeded" } ∧
      check_rate_limit (emailSendRun toAddr subject body ((List.range 10).map t) initialGuardrails)
          "email_send" (t 10) =
        { allowed := false, reason := some "Rate limit exceeded: 10 per 3600s",
          reset_time := some (t 0), remaining := none } ∧
      (∀ later : Nat,
        (∀ e ∈ (emailSendRun toAddr subject body ((List.range 10).map t)
            initialGuardrails).action_history, 3600 ≤ later - e.timestamp) →
        (check_email_send
            (emailSendRun toAddr subject body ((List.range 10).map t) initialGuardrails)
            toAddr subject body later).1.approved = true) := by
  intro toAddr subject body t hvalid hsens hmono hwin
  have hhist := emailSendRun_history toAddr subject body t hvalid
  have hrate10 :
      check_rate_limit (emailSendRun toAddr subject body ((List.range 10).map t) initialGuardrails)
          "email_send" (t 10) =
        { allowed := false, reason := some "Rate limit exceeded: 10 per 3600s",
          reset_time := some (t 0), remaining := none } := by
    unfold check_rate_limit RATE_LIMITS
    simp only [beq_self_eq_true, if_true]
    rw [hhist 10 (by omega)]
    have hfil : ((List.range 10).map
          (fun i => ({ type := "email_send", timestamp := t i, recipient := some toAddr } : ActionEntry))).filter
          (fun a => a.type == "email_send" && decide (t 10 - a.timestamp < 3600)) =
        (List.range 10).map
          (fun i => ({ type := "email_send", timestamp := t i, recipient := some toAddr } : ActionEntry)) := by
      rw [List.filter_eq_self]
      intro a ha
      obtain ⟨i, hi, rfl⟩ := List.mem_map.mp ha
      rw [List.mem_range] at hi
      have h0i : t 0 ≤ t i := hmono 0 i (by omega)
      have hi10 : t i ≤ t 10 := hmono i 10 (by omega)
      simp only [Bool.and_eq_true, beq_self_eq_true, true_and, decide_eq_true_eq]
      omega
    rw [hfil]
    rw [if_pos (by simp)]
    have hhead : ((List.range 10).map
          (fun i => ({ type := "email_send", timestamp := t i, recipient := some toAddr } : ActionEntry))).head?
        = some { type := "email_send", timestamp := t 0, recipient := some toAddr } := rfl
    rw [hhead]
    have hstr : ("Rate limit exceeded: " ++ toString (10 : Nat) ++ " per "
        ++ toString (3600 : Nat) ++ "s") = "Rate limit exceeded: 10 per 3600s" := by decide
    rw [hstr]
    rfl
  refine ⟨?_, ?_, hrate10, ?_⟩
  · intro k hk
    have hlen : (emailSendRun toAddr subject body ((List.range k).map t)
        initialGuardrails).action_history.length < 10 := by
      rw [hhist k (by omega)]
      simp only [List.length_map, List.length_range]
      omega
    exact check_email_send_approved (rate_allowed_of_short hlen) hvalid
  · have hblocked := check_email_send_blocked
      (emailSendRun toAddr subject body ((List.range 10).map t) initialGuardrails)
      toAddr subject body (t 10) (by rw [hrate10]) hsens
    rw [congrArg Prod.fst hblocked]
    rw [hrate10]
    rfl
  · intro later hold
    have hallowed : (check_rate_limit
        (emailSendRun toAddr subject body ((List.range 10).map t) initialGuardrails)
        "email_send" later).allowed = true := by
      unfold check_rate_limit RATE_LIMITS
      simp only [beq_self_eq_true, if_true]
      have hfil : ((emailSendRun toAddr subject body ((List.range 10).map t)
            initialGuardrails).action_history).filter
          (fun a => a.type == "email_send" && decide (later - a.timestamp < 3600)) = [] := by
        rw [List.filter_eq_nil_iff]
        intro a ha
        have h1 := hold a ha
        simp only [Bool.and_eq_true, decide_eq_true_eq, not_and]
        intro _
        omega
      rw [hfil]
      rw [if_neg (by simp)]
    exact check_email_send_approved hallowed hvalid


/-- C1 (witness): the run at concrete times 0,1,…,10 with recipient
`a@b.cc` and body `hi`: the 11th call is blocked with the earliest
timestamp 0 reported as reset time. -/
theorem c1_email_rate_limit_witness :
    (check_email_send (emailSendRun "a@b.cc" "s" "hi" ((List.range 10).map id) initialGuardrails)
        "a@b.cc" "s" "hi" (id 10)).1 =
      { approved := false,
        warnings := [some (Warning.rateLimit "Rate limit exceeded: 10 per 3600s")],
        requires_human := false,
        reason := some "Rate limit exceeded" } ∧
    check_rate_limit (emailSendRun "a@b.cc" "s" "hi" ((List.range 10).map id) initialGuardrails)
        "email_send" (id 10) =
      { allowed := false, reason := some "Rate limit exceeded: 10 per 3600s",
        reset_time := some (id 0), remaining := none } :=
  ⟨(c1_email_rate_limit "a@b.cc" "s" "hi" id (by decide) (by decide)
      (fun i j h => h) (by decide)).2.1,
   (c1_email_rate_limit "a@b.cc" "s" "hi" id (by decide) (by decide)
      (fun i j h => h) (by decide)).2.2.1⟩

/-- `splitFirst` finds nothing when the character is absent. -/
theorem splitFirst_eq_none {c : Char} {l : List Char} (h : c ∉ l) : splitFirst c l = none := by
  induction l with
  | nil => rfl
  | cons x xs ih =>
    unfold splitFirst
    rw [List.mem_cons, not_or] at h
    rw [if_neg (fun hx => h.1 hx.symm), ih h.2]
    rfl

/-- `splitFirst` splits at the first occurrence. -/
theorem splitFirst_append {c : Char} {a b : List Char} (h : c ∉ a) :
    splitFirst c (a ++ c :: b) = some (a, b) := by
  induction a with
  | nil =>
    show splitFirst c (c :: b) = some ([], b)
    unfold splitFirst
    rw [if_pos rfl]
  | cons x xs ih =>
    rw [List.mem_cons, not_or] at h
    rw [List.cons_append]
    unfold splitFirst
    rw [if_neg (fun hx => h.1 hx.symm), ih h.2]
    rfl

/-- A successful `splitFirst` decomposes its input, with no occurrence
before the split. -/
theorem splitFirst_eq_some {c : Char} {l a b : List Char} (h : splitFirst c l = some (a, b)) :
    l = a ++ c :: b ∧ c ∉ a := by
  induction l generalizing a b with
  | nil => cases h
  | cons x xs ih =>
    unfold splitFirst at h
    by_cases hx : x = c
    · rw [if_pos hx] at h
      injection h with h2
      injection h2 with ha hb
      subst hx
      rw [← ha, ← hb]
      simp
    · rw [if_neg hx] at h
      cases hsp : splitFirst c xs with
      | none =>
        rw [hsp] at h
        cases h
      | some p =>
        rw [hsp] at h
        obtain ⟨p1, p2⟩ := p
        rw [Option.map_some'] at h
        injection h with h2
        injection h2 with ha hb
        obtain ⟨hl, hna⟩ := ih hsp
        subst hb
        rw [← ha]
        constructor
        · rw [hl]
          simp
        · rw [List.mem_cons, not_or]
          exact ⟨fun hc => hx hc.symm, hna⟩

/-- When the prose left of the object has no opening brace and the prose
right of it has no closing brace, the greedy brace search isolates exactly
the object span. -/
theorem reSearchBraces_extract {q1 jmid q2 : List Char}
    (h1 : '\x7b' ∉ q1) (h2 : '\x7d' ∉ q2) :
    reSearchBraces (q1 ++ ('\x7b' :: (jmid ++ ['\x7d'])) ++ q2) =
      '\x7b' :: (jmid ++ ['\x7d']) := by
  unfold reSearchBraces
  have e1 : q1 ++ ('\x7b' :: (jmid ++ ['\x7d'])) ++ q2 =
      q1 ++ '\x7b' :: (jmid ++ '\x7d' :: q2) := by simp
  rw [e1, splitFirst_append h1]
  dsimp only
  have e2 : (jmid ++ '\x7d' :: q2).reverse = q2.reverse ++ '\x7d' :: jmid.reverse := by
    simp
  rw [e2, splitFirst_append (by simpa using h2)]
  dsimp only
  simp

/-- `dropWhile` on prose followed by text with a non-matching head keeps a
tail of the prose plus everything after. -/
theorem dropWhile_append_mid {p : Char → Bool} (a mid rest : List Char)
    (hne : mid ≠ []) (hh : p (mid.headD ' ') = false) :
    ∃ q, (a ++ (mid ++ rest)).dropWhile p = q ++ (mid ++ rest) ∧ q.Sublist a := by
  obtain ⟨m, ms, rfl⟩ : ∃ m ms, mid = m :: ms := by
    cases mid with
    | nil => exact absurd rfl hne
    | cons m ms => exact ⟨m, ms, rfl⟩
  have hm : p m = false := hh
  rw [List.dropWhile_append]
  by_cases he : (a.dropWhile p).isEmpty
  · rw [if_pos he]
    rw [List.cons_append, List.dropWhile_cons, if_neg (by rw [hm]; exact Bool.noConfusion)]
    exact ⟨[], rfl, List.nil_sublist a⟩
  · rw [if_neg he]
    exact ⟨a.dropWhile p, rfl, List.dropWhile_sublist p⟩

/-- Stripping whitespace around `p1 ++ mid ++ p2` keeps `mid` intact when
`mid` neither starts nor ends with whitespace. -/
theorem pyStripList_shape (p1 mid p2 : List Char) (hne : mid ≠ [])
    (hh : isSpaceC (mid.headD ' ') = false) (hl : isSpaceC (mid.getLastD ' ') = false) :
    ∃ q1 q2, pyStripList (p1 ++ mid ++ p2) = q1 ++ mid ++ q2 ∧ q1.Sublist p1 ∧ q2.Sublist p2 := by
  unfold pyStripList
  obtain ⟨q1, he1, hs1⟩ := dropWhile_append_mid p1 mid p2 hne hh
  rw [List.append_assoc, he1]
  have hrevne : mid.reverse ≠ [] := by simpa using hne
  have hrevh : isSpaceC (mid.reverse.headD ' ') = false := by
    rw [List.headD_eq_head?_getD, List.head?_reverse, ← List.getLastD_eq_getLast?]
    exact hl
  have hrev : (q1 ++ (mid ++ p2)).reverse = p2.reverse ++ (mid.reverse ++ q1.reverse) := by
    simp
  rw [hrev]
  obtain ⟨q2r, he2, hs2⟩ := dropWhile_append_mid p2.reverse mid.reverse
    q1.reverse hrevne hrevh
  rw [he2]
  refine ⟨q1, q2r.reverse, ?_, hs1, ?_⟩
  · simp
  · have := hs2.reverse
    simpa using this

/-- The opening-fence pattern cannot match backtick-free text. -/
theorem fenceOpenMatch_none {cs : List Char} (h : '\x60' ∉ cs) : fenceOpenMatch cs = none := by
  unfold fenceOpenMatch
  split
  · simp at h
  · rfl

/-- The closing-fence pattern cannot match backtick-free text. -/
theorem fenceCloseMatch_none {cs : List Char} (h : '\x60' ∉ cs) : fenceCloseMatch cs = none := by
  unfold fenceCloseMatch
  split
  · simp at h
  · rfl

/-- Opening-fence removal is the identity on backtick-free text. -/
theorem fenceOpenSub_id : ∀ (f : Nat) (b : Bool) (cs : List Char),
    '\x60' ∉ cs → fenceOpenSub f b cs = cs := by
  intro f
  induction f with
  | zero => intro b cs h; rfl
  | succ n ih =>
    intro b cs h
    unfold fenceOpenSub
    cases cs with
    | nil => rfl
    | cons c rest =>
      rw [List.mem_cons, not_or] at h
      have hrest := h.2
      have hall : '\x60' ∉ (c :: rest) := by
        rw [List.mem_cons, not_or]
        exact h
      cases b with
      | false =>
        dsimp only
        rw [ih (decide (c = '\n')) rest hrest]
        simp
      | true =>
        dsimp only
        rw [fenceOpenMatch_none hall]
        rw [ih (decide (c = '\n')) rest hrest]
        simp

/-- Closing-fence removal is the identity on backtick-free text. -/
theorem fenceCloseSub_id : ∀ (f : Nat) (cs : List Char),
    '\x60' ∉ cs → fenceCloseSub f cs = cs := by
  intro f
  induction f with
  | zero => intro cs h; rfl
  | succ n ih =>
    intro cs h
    unfold fenceCloseSub
    cases cs with
    | nil => rfl
    | cons c rest =>
      rw [List.mem_cons, not_or] at h
      have hall : '\x60' ∉ (c :: rest) := by
        rw [List.mem_cons, not_or]
        exact h
      dsimp only
      rw [fenceCloseMatch_none hall]
      rw [ih rest h.2]

/-- A successful opening-fence match returns a sublist (suffix) of the
text. -/
theorem fenceOpenMatch_sublist {cs r : List Char} (h : fenceOpenMatch cs = some r) :
    r.Sublist cs := by
  unfold fenceOpenMatch at h
  split at h
  · rename_i r1
    dsimp only at h
    split at h
    · split at h
      · injection h with h2
        subst h2
        exact List.Sublist.cons _ (List.Sublist.cons _ (List.Sublist.cons _
          ((List.drop_sublist _ _).trans (List.drop_sublist 4 r1))))
      · cases h
    · split at h
      · injection h with h2
        subst h2
        exact List.Sublist.cons _ (List.Sublist.cons _ (List.Sublist.cons _
          (List.drop_sublist _ _)))
      · cases h
  · cases h

/-- A successful closing-fence match returns a sublist of the text. -/
theorem fenceCloseMatch_sublist {cs r : List Char} (h : fenceCloseMatch cs = some r) :
    r.Sublist cs := by
  unfold fenceCloseMatch at h
  split at h
  · rename_i r1
    dsimp only at h
    split at h
    · injection h with h2
      subst h2
      exact List.nil_sublist _
    · split at h
      · injection h with h2
        subst h2
        exact List.Sublist.cons _ (List.Sublist.cons _ (List.Sublist.cons _
          (List.Sublist.cons _ (List.drop_sublist _ _))))
      · cases h
  · cases h

/-- Opening-fence removal only deletes characters. -/
theorem fenceOpenSub_sublist : ∀ (f : Nat) (b : Bool) (cs : List Char),
    (fenceOpenSub f b cs).Sublist cs := by
  intro f
  induction f with
  | zero => intro b cs; exact List.Sublist.refl _
  | succ n ih =>
    intro b cs
    unfold fenceOpenSub
    cases cs with
    | nil => exact List.Sublist.refl _
    | cons c rest =>
      cases b with
      | false =>
        dsimp only
        simp only [Bool.false_eq_true, if_false]
        exact (ih _ rest).cons₂ c
      | true =>
        dsimp only
        simp only [if_true]
        cases hm : fenceOpenMatch (c :: rest) with
        | none => exact (ih _ rest).cons₂ c
        | some r => exact (ih true r).trans (fenceOpenMatch_sublist hm)

/-- Closing-fence removal only deletes characters. -/
theorem fenceCloseSub_sublist : ∀ (f : Nat) (cs : List Char),
    (fenceCloseSub f cs).Sublist cs := by
  intro f
  induction f with
  | zero => intro cs; exact List.Sublist.refl _
  | succ n ih =>
    intro cs
    unfold fenceCloseSub
    cases cs with
    | nil => exact List.Sublist.refl _
    | cons c rest =>
      dsimp only
      cases hm : fenceCloseMatch (c :: rest) with
      | none => exact (ih rest).cons₂ c
      | some r => exact (ih r).trans (fenceCloseMatch_sublist hm)

/-- Stripping only deletes characters. -/
theorem pyStripList_sublist (cs : List Char) : (pyStripList cs).Sublist cs := by
  unfold pyStripList
  refine List.Sublist.trans ?_ (@List.dropWhile_sublist _ cs isSpaceC)
  have h1 := @List.dropWhile_sublist _ ((cs.dropWhile isSpaceC).reverse) isSpaceC
  have h2 := h1.reverse
  simpa using h2

/-- The whole strip/defence pipeline only deletes characters. -/
theorem preprocessed_sublist (s : String) : (preprocessed s).Sublist s.data := by
  unfold preprocessed
  refine List.Sublist.trans (pyStripList_sublist _) ?_
  refine List.Sublist.trans (fenceCloseSub_sublist _ _) ?_
  refine List.Sublist.trans (fenceOpenSub_sublist _ _ _) ?_
  exact pyStripList_sublist _

/-- Having no brace pair is preserved by deletion of characters. -/
theorem noBracePair_sublist {cs cs2 : List Char} (h : noBracePair cs) (hsub : cs2.Sublist cs) :
    noBracePair cs2 :=
  fun hp => h (hp.trans hsub)

/-- An opening brace with a later closing brace forms a brace pair. -/
theorem pair_sublist_of_split {a b : List Char} (hmem : '\x7d' ∈ b) :
    List.Sublist ['\x7b', '\x7d'] (a ++ '\x7b' :: b) := by
  have h1 : List.Sublist ['\x7d'] b := List.singleton_sublist.mpr hmem
  have h2 : List.Sublist ['\x7b', '\x7d'] ('\x7b' :: b) := h1.cons₂ _
  exact List.sublist_append_of_sublist_right h2

/-- On text with no brace pair the brace search leaves the text
unchanged. -/
theorem reSearchBraces_of_noPair {cs : List Char} (h : noBracePair cs) :
    reSearchBraces cs = cs := by
  unfold reSearchBraces
  cases h1 : splitFirst '\x7b' cs with
  | none => rfl
  | some p =>
    obtain ⟨a, b⟩ := p
    obtain ⟨hcs, hna⟩ := splitFirst_eq_some h1
    dsimp only
    cases h2 : splitFirst '\x7d' b.reverse with
    | none => rfl
    | some q =>
      exfalso
      obtain ⟨hb, _⟩ := splitFirst_eq_some h2
      have hmem : '\x7d' ∈ b := by
        rw [← List.mem_reverse, hb]
        simp
      exact h (hcs ▸ pair_sublist_of_split hmem)

/-- Parsing the empty string fails. -/
theorem jsonLoads_nil : jsonLoads ⟨[]⟩ = none := rfl

/-- On text with no brace pair, the first-brace-to-last-brace fallback
slice, when defined at all, is empty (the last closing brace precedes the
first opening brace). -/
theorem fallbackSlice_nil_of_noPair {cs sl : List Char} (h : noBracePair cs)
    (hfb : fallbackSlice cs = some sl) : sl = [] := by
  unfold fallbackSlice at hfb
  cases h1 : splitFirst '\x7b' cs with
  | none =>
    rw [h1] at hfb
    cases hfb
  | some p =>
    rw [h1] at hfb
    obtain ⟨pre, rest⟩ := p
    cases h2 : splitFirst '\x7d' cs.reverse with
    | none =>
      rw [h2] at hfb
      cases hfb
    | some q =>
      rw [h2] at hfb
      obtain ⟨revAfter, x⟩ := q
      dsimp only at hfb
      injection hfb with hsl
      obtain ⟨hcs, hpre⟩ := splitFirst_eq_some h1
      obtain ⟨hrev, hra⟩ := splitFirst_eq_some h2
      have hnr : '\x7d' ∉ rest := fun hm => h (hcs ▸ pair_sublist_of_split hm)
      have hrev2 : cs.reverse = rest.reverse ++ '\x7b' :: pre.reverse := by
        rw [hcs]
        simp
      have hlen : rest.length + 1 ≤ revAfter.length := by
        by_contra hcon
        push_neg at hcon
        have hle : revAfter.length ≤ rest.length := by omega
        have hget : cs.reverse[revAfter.length]? = some '\x7d' := by
          rw [hrev, List.getElem?_append_right (Nat.le_refl _)]
          simp
        by_cases heq : revAfter.length = rest.length
        · rw [hrev2, heq] at hget
          rw [List.getElem?_append_right (by simp)] at hget
          simp at hget
        · have hlt : revAfter.length < rest.length := by omega
          rw [hrev2] at hget
          rw [List.getElem?_append_left (by simpa using hlt)] at hget
          have : '\x7d' ∈ rest.reverse := List.getElem?_mem hget
          rw [List.mem_reverse] at this
          exact hnr this
      have hcslen : cs.length = pre.length + 1 + rest.length := by
        rw [hcs]
        simp
        omega
      rw [← hsl]
      apply List.drop_eq_nil_of_le
      rw [List.length_take]
      omega

/-- The opening-fence pattern only fires on a leading backtick. -/
theorem fenceOpenMatch_head_ne {c : Char} {rest : List Char} (h : c ≠ '\x60') :
    fenceOpenMatch (c :: rest) = none := by
  unfold fenceOpenMatch
  split
  · rename_i r1 heq
    injection heq with h1 h2
    exact absurd h1 h
  · rfl

/-- The closing-fence pattern only fires on a leading newline. -/
theorem fenceCloseMatch_head_ne {c : Char} {rest : List Char} (h : c ≠ '\n') :
    fenceCloseMatch (c :: rest) = none := by
  unfold fenceCloseMatch
  split
  · rename_i r1 heq
    injection heq with h1 h2
    exact absurd h1 h
  · rfl

/-- The closing-fence pattern needs a backtick right after the newline. -/
theorem fenceCloseMatch_second_ne {d : Char} {rest : List Char} (h : d ≠ '\x60') :
    fenceCloseMatch ('\n' :: d :: rest) = none := by
  unfold fenceCloseMatch
  split
  · rename_i r1 heq
    injection heq with h1 h2
    injection h2 with h3 h4
    exact absurd h3 h
  · rfl

/-- A prefix no longer than the leading `takeWhile p` run cannot contain a
character failing `p`. -/
theorem take_of_takeWhile_not {p : Char → Bool} {l : List Char} {q : Nat} {a : Char}
    (hq : q ≤ (l.takeWhile p).length) (hpa : p a = false) : a ∉ l.take q := by
  intro hmem
  have hpre : l.takeWhile p ++ l.dropWhile p = l := List.takeWhile_append_dropWhile p l
  have : l.take q = (l.takeWhile p).take q := by
    conv_lhs => rw [← hpre]
    rw [List.take_append_of_le_length hq]
  rw [this] at hmem
  have hmem2 : a ∈ l.takeWhile p := (List.take_sublist q (l.takeWhile p)).subset hmem
  have := List.mem_takeWhile_imp hmem2
  rw [hpa] at this
  exact Bool.noConfusion this

/-- A successful opening-fence match removes a prefix made of backticks,
the `json` tag and whitespace — in particular one free of opening
braces. -/
theorem fenceOpenMatch_consumed {cs r : List Char} (h : fenceOpenMatch cs = some r) :
    ∃ n, n ≤ cs.length ∧ r = cs.drop n ∧ '\x7b' ∉ cs.take n := by
  unfold fenceOpenMatch at h
  split at h
  · rename_i rx R1
    dsimp only at h
    split at h
    · rename_i hjson
      split at h
      · rename_i hk
        injection h with h2
        obtain ⟨t, ht⟩ := List.isPrefixOf_iff_prefix.mp hjson
        have ht2 : t = R1.drop 4 := by
          rw [← ht, List.drop_left' (by decide)]
        set q : Nat := (List.takeWhile isSpaceC (List.drop 4 R1)).length -
          List.findIdx (fun c => decide (c = '\n'))
            (List.takeWhile isSpaceC (List.drop 4 R1)).reverse with hq
        have hqle : q ≤ ((R1.drop 4).takeWhile isSpaceC).length := by omega
        have hcs : ('\x60' :: '\x60' :: '\x60' :: R1) = ['\x60', '\x60', '\x60'] ++ R1 := rfl
        refine ⟨3 + (4 + q), ?_, ?_, ?_⟩
        · have h4 : 4 ≤ R1.length := by
            rw [← ht]
            simp
          have hrl : ((R1.drop 4).takeWhile isSpaceC).length ≤ (R1.drop 4).length :=
            (List.takeWhile_prefix isSpaceC).length_le
          have hdl : (R1.drop 4).length = R1.length - 4 := by simp
          simp only [List.length_cons]
          omega
        · rw [← h2, hcs]
          rw [show (3 : Nat) + (4 + q) = (['\x60', '\x60', '\x60'] : List Char).length + (4 + q)
            from rfl]
          rw [List.drop_append]
          rw [List.drop_drop]
        · rw [hcs]
          rw [show (3 : Nat) + (4 + q) = (['\x60', '\x60', '\x60'] : List Char).length + (4 + q)
            from rfl]
          rw [List.take_append]
          rw [← ht]
          rw [show (4 : Nat) + q = (['j', 's', 'o', 'n'] : List Char).length + q from rfl]
          rw [List.take_append]
          intro hmem
          have hnotin : '\x7b' ∉ t.take q := by
            apply take_of_takeWhile_not (p := isSpaceC)
            · rw [← ht2] at hqle
              exact hqle
            · decide
          rcases List.mem_append.mp hmem with h1 | h2
          · simp at h1
          · rcases List.mem_append.mp h2 with h3 | h4
            · simp at h3
            · exact hnotin h4
      · exact absurd h (by simp)
    · rename_i hjson
      split at h
      · rename_i hk
        injection h with h2
        set q : Nat := (List.takeWhile isSpaceC R1).length -
          List.findIdx (fun c => decide (c = '\n')) (List.takeWhile isSpaceC R1).reverse with hq
        have hqle : q ≤ (R1.takeWhile isSpaceC).length := by omega
        have hcs : ('\x60' :: '\x60' :: '\x60' :: R1) = ['\x60', '\x60', '\x60'] ++ R1 := rfl
        refine ⟨3 + q, ?_, ?_, ?_⟩
        · have hrl : (R1.takeWhile isSpaceC).length ≤ R1.length :=
            (List.takeWhile_prefix isSpaceC).length_le
          simp only [List.length_cons]
          omega
        · rw [← h2, hcs]
          rw [show (3 : Nat) + q = (['\x60', '\x60', '\x60'] : List Char).length + q from rfl]
          rw [List.drop_append]
        · rw [hcs]
          rw [show (3 : Nat) + q = (['\x60', '\x60', '\x60'] : List Char).length + q from rfl]
          rw [List.take_append]
          intro hmem
          have hnotin : '\x7b' ∉ R1.take q := by
            apply take_of_takeWhile_not (p := isSpaceC) hqle
            decide
          rcases List.mem_append.mp hmem with h1 | h2
          · simp at h1
          · exact hnotin h2
      · exact absurd h (by simp)
  · exact absurd h (by simp)

/-- A successful closing-fence match removes a prefix made of a newline,
backticks and whitespace — in particular one free of opening braces. -/
theorem fenceCloseMatch_consumed {cs r : List Char} (h : fenceCloseMatch cs = some r) :
    ∃ n, n ≤ cs.length ∧ r = cs.drop n ∧ '\x7b' ∉ cs.take n := by
  unfold fenceCloseMatch at h
  split at h
  · rename_i rx R1
    dsimp only at h
    split at h
    · rename_i hempty
      injection h with h2
      have hrun : R1.takeWhile isSpaceC = R1 := by
        apply (List.takeWhile_prefix isSpaceC).eq_of_length_le
        have : (R1.drop (R1.takeWhile isSpaceC).length).isEmpty = true := hempty
        rw [List.isEmpty_iff, List.drop_eq_nil_iff] at this
        exact this
      refine ⟨('\n' :: '\x60' :: '\x60' :: '\x60' :: R1).length, Nat.le_refl _, ?_, ?_⟩
      · rw [List.drop_length, ← h2]
      · rw [List.take_of_length_le (Nat.le_refl _)]
        intro hmem
        rcases List.mem_cons.mp hmem with h1 | hmem
        · exact absurd h1 (by decide)
        rcases List.mem_cons.mp hmem with h1 | hmem
        · exact absurd h1 (by decide)
        rcases List.mem_cons.mp hmem with h1 | hmem
        · exact absurd h1 (by decide)
        rcases List.mem_cons.mp hmem with h1 | hmem
        · exact absurd h1 (by decide)
        rw [← hrun] at hmem
        have := List.mem_takeWhile_imp hmem
        exact absurd this (by decide)
    · split at h
      · rename_i hk
        injection h with h2
        set q : Nat := (List.takeWhile isSpaceC R1).length - 1 -
          List.findIdx (fun c => decide (c = '\n')) (List.takeWhile isSpaceC R1).reverse with hq
        have hqle : q ≤ (R1.takeWhile isSpaceC).length := by omega
        have hcs : ('\n' :: '\x60' :: '\x60' :: '\x60' :: R1) =
            ['\n', '\x60', '\x60', '\x60'] ++ R1 := rfl
        refine ⟨4 + q, ?_, ?_, ?_⟩
        · have hrl : (R1.takeWhile isSpaceC).length ≤ R1.length :=
            (List.takeWhile_prefix isSpaceC).length_le
          simp only [List.length_cons]
          omega
        · rw [← h2, hcs]
          rw [show (4 : Nat) + q = (['\n', '\x60', '\x60', '\x60'] : List Char).length + q
            from rfl]
          rw [List.drop_append]
        · rw [hcs]
          rw [show (4 : Nat) + q = (['\n', '\x60', '\x60', '\x60'] : List Char).length + q
            from rfl]
          rw [List.take_append]
          intro hmem
          have hnotin : '\x7b' ∉ R1.take q := by
            apply take_of_takeWhile_not (p := isSpaceC) hqle
            decide
          rcases List.mem_append.mp hmem with h1 | h2
          · simp at h1
          · exact hnotin h2
      · exact absurd h (by simp)
  · exact absurd h (by simp)

/-- Opening-fence removal copies a backtick-free text verbatim and then
processes the rest (no match can start inside it, and no match from inside
can fire since the pattern needs a leading backtick). -/
theorem fenceOpenSub_core : ∀ (f : Nat) (b : Bool) (m y : List Char), '\x60' ∉ m →
    ∃ y2, fenceOpenSub f b (m ++ y) = m ++ y2 ∧ y2.Sublist y := by
  intro f
  induction f with
  | zero => exact fun b m y _ => ⟨y, rfl, List.Sublist.refl y⟩
  | succ n ih =>
    intro b m y hm
    cases m with
    | nil => exact ⟨fenceOpenSub (n + 1) b y, rfl, fenceOpenSub_sublist (n + 1) b y⟩
    | cons c m2 =>
      have hcne : c ≠ '\x60' := fun he => hm (he ▸ List.mem_cons_self c m2)
      have hm2 : '\x60' ∉ m2 := fun hmem => hm (List.mem_cons_of_mem _ hmem)
      obtain ⟨y2, he, hs⟩ := ih (decide (c = '\n')) m2 y hm2
      rw [List.cons_append]
      unfold fenceOpenSub
      dsimp only
      cases b with
      | false =>
        simp only [Bool.false_eq_true, if_false]
        rw [he]
        exact ⟨y2, rfl, hs⟩
      | true =>
        simp only [if_true]
        rw [fenceOpenMatch_head_ne hcne]
        rw [he]
        exact ⟨y2, rfl, hs⟩

/-- Closing-fence removal copies a backtick-free text ending in a closing
brace verbatim and then processes the rest. -/
theorem fenceCloseSub_core : ∀ (f : Nat) (m y : List Char), '\x60' ∉ m →
    ∃ y2, fenceCloseSub f ((m ++ ['\x7d']) ++ y) = (m ++ ['\x7d']) ++ y2 ∧ y2.Sublist y := by
  intro f
  induction f with
  | zero => exact fun m y _ => ⟨y, rfl, List.Sublist.refl y⟩
  | succ n ih =>
    intro m y hm
    cases m with
    | nil =>
      show ∃ y2, fenceCloseSub (n + 1) ('\x7d' :: y) = '\x7d' :: y2 ∧ y2.Sublist y
      unfold fenceCloseSub
      dsimp only
      rw [fenceCloseMatch_head_ne (by decide)]
      exact ⟨fenceCloseSub n y, rfl, fenceCloseSub_sublist n y⟩
    | cons c m2 =>
      have hm2 : '\x60' ∉ m2 := fun hmem => hm (List.mem_cons_of_mem _ hmem)
      obtain ⟨y2, he, hs⟩ := ih m2 y hm2
      have hshape : ((c :: m2) ++ ['\x7d']) ++ y = c :: ((m2 ++ ['\x7d']) ++ y) := by simp
      rw [hshape]
      unfold fenceCloseSub
      dsimp only
      have hcm : fenceCloseMatch (c :: ((m2 ++ ['\x7d']) ++ y)) = none := by
        by_cases hc : c = '\n'
        · subst hc
          cases m2 with
          | nil => exact fenceCloseMatch_second_ne (by decide)
          | cons d m3 =>
            have hd : d ≠ '\x60' := fun he2 => hm (he2 ▸ List.mem_cons_of_mem _ (List.mem_cons_self d m3))
            exact fenceCloseMatch_second_ne hd
        · exact fenceCloseMatch_head_ne hc
      rw [hcm]
      rw [he]
      exact ⟨y2, by simp, hs⟩

/-- A brace-free prefix of `x ++ \x7b :: γ` stays within `x`. -/
theorem brace_at_boundary {x γ : List Char} {nn : Nat}
    (hnb : '\x7b' ∉ (x ++ '\x7b' :: γ).take nn) : nn ≤ x.length := by
  by_contra hcon
  push_neg at hcon
  apply hnb
  have hget : (x ++ '\x7b' :: γ)[x.length]? = some '\x7b' := by
    rw [List.getElem?_append_right (Nat.le_refl _)]
    simp
  have htake : ((x ++ '\x7b' :: γ).take nn)[x.length]? = some '\x7b' := by
    rw [List.getElem?_take_of_lt hcon]
    exact hget
  exact List.getElem?_mem htake

/-- Opening-fence removal on arbitrary prose around a backtick-free
brace-delimited object: every match lies entirely inside the prose (a match
crossing the object would have to consume its opening brace), so the object
survives verbatim and each prose side only loses characters. -/
theorem fenceOpenSub_shape : ∀ (f : Nat) (b : Bool) (x jmid y : List Char), '\x60' ∉ jmid →
    ∃ x2 y2, fenceOpenSub f b (x ++ ('\x7b' :: (jmid ++ ['\x7d'])) ++ y)
        = x2 ++ ('\x7b' :: (jmid ++ ['\x7d'])) ++ y2 ∧ x2.Sublist x ∧ y2.Sublist y := by
  intro f
  induction f with
  | zero => exact fun b x jmid y _ => ⟨x, y, rfl, List.Sublist.refl x, List.Sublist.refl y⟩
  | succ n ih =>
    intro b x jmid y hj
    have hJ : '\x60' ∉ ('\x7b' :: (jmid ++ ['\x7d'])) := by
      intro hmem
      rcases List.mem_cons.mp hmem with h1 | h2
      · exact absurd h1 (by decide)
      rcases List.mem_append.mp h2 with h3 | h4
      · exact hj h3
      · simp at h4
    cases x with
    | nil =>
      rw [List.nil_append]
      obtain ⟨y2, he, hs⟩ := fenceOpenSub_core (n + 1) b ('\x7b' :: (jmid ++ ['\x7d'])) y hJ
      exact ⟨[], y2, he, List.Sublist.refl _, hs⟩
    | cons c x2 =>
      have hshape : ((c :: x2) ++ ('\x7b' :: (jmid ++ ['\x7d'])) ++ y) =
          c :: (x2 ++ ('\x7b' :: (jmid ++ ['\x7d'])) ++ y) := by simp
      rw [hshape]
      unfold fenceOpenSub
      dsimp only
      cases b with
      | false =>
        simp only [Bool.false_eq_true, if_false]
        obtain ⟨x3, y2, he, hsx, hsy⟩ := ih (decide (c = '\n')) x2 jmid y hj
        rw [he]
        exact ⟨c :: x3, y2, by simp, hsx.cons₂ c, hsy⟩
      | true =>
        simp only [if_true]
        cases hm : fenceOpenMatch (c :: (x2 ++ ('\x7b' :: (jmid ++ ['\x7d'])) ++ y)) with
        | none =>
          obtain ⟨x3, y2, he, hsx, hsy⟩ := ih (decide (c = '\n')) x2 jmid y hj
          rw [he]
          exact ⟨c :: x3, y2, by simp, hsx.cons₂ c, hsy⟩
        | some r =>
          obtain ⟨nn, hle, hr, hnb⟩ := fenceOpenMatch_consumed hm
          have hassoc : (c :: (x2 ++ ('\x7b' :: (jmid ++ ['\x7d'])) ++ y)) =
              ((c :: x2) ++ '\x7b' :: ((jmid ++ ['\x7d']) ++ y)) := by simp
          rw [hassoc] at hr hnb
          have hnn : nn ≤ (c :: x2).length := brace_at_boundary hnb
          have hrform : r = ((c :: x2).drop nn) ++ ('\x7b' :: (jmid ++ ['\x7d'])) ++ y := by
            rw [hr, List.drop_append_of_le_length hnn]
            simp
          obtain ⟨x3, y2, he, hsx, hsy⟩ := ih true ((c :: x2).drop nn) jmid y hj
          rw [hrform]
          dsimp only
          rw [he]
          exact ⟨x3, y2, rfl, hsx.trans (List.drop_sublist nn (c :: x2)), hsy⟩

/-- Closing-fence removal preserves a backtick-free brace-delimited object
surrounded by arbitrary prose, as for the opening pattern. -/
theorem fenceCloseSub_shape : ∀ (f : Nat) (x jmid y : List Char), '\x60' ∉ jmid →
    ∃ x2 y2, fenceCloseSub f (x ++ ('\x7b' :: (jmid ++ ['\x7d'])) ++ y)
        = x2 ++ ('\x7b' :: (jmid ++ ['\x7d'])) ++ y2 ∧ x2.Sublist x ∧ y2.Sublist y := by
  intro f
  induction f with
  | zero => exact fun x jmid y _ => ⟨x, y, rfl, List.Sublist.refl x, List.Sublist.refl y⟩
  | succ n ih =>
    intro x jmid y hj
    have hj2 : '\x60' ∉ ('\x7b' :: jmid) := by
      intro hmem
      rcases List.mem_cons.mp hmem with h1 | h2
      · exact absurd h1 (by decide)
      · exact hj h2
    cases x with
    | nil =>
      rw [List.nil_append]
      have hshape : ('\x7b' :: (jmid ++ ['\x7d'])) ++ y =
          (('\x7b' :: jmid) ++ ['\x7d']) ++ y := by simp
      rw [hshape]
      obtain ⟨y2, he, hs⟩ := fenceCloseSub_core (n + 1) ('\x7b' :: jmid) y hj2
      refine ⟨[], y2, ?_, List.Sublist.refl _, hs⟩
      rw [he]
      simp
    | cons c x2 =>
      have hshape : ((c :: x2) ++ ('\x7b' :: (jmid ++ ['\x7d'])) ++ y) =
          c :: (x2 ++ ('\x7b' :: (jmid ++ ['\x7d'])) ++ y) := by simp
      rw [hshape]
      unfold fenceCloseSub
      dsimp only
      cases hm : fenceCloseMatch (c :: (x2 ++ ('\x7b' :: (jmid ++ ['\x7d'])) ++ y)) with
      | none =>
        obtain ⟨x3, y2, he, hsx, hsy⟩ := ih x2 jmid y hj
        rw [he]
        exact ⟨c :: x3, y2, by simp, hsx.cons₂ c, hsy⟩
      | some r =>
        obtain ⟨nn, hle, hr, hnb⟩ := fenceCloseMatch_consumed hm
        have hassoc : (c :: (x2 ++ ('\x7b' :: (jmid ++ ['\x7d'])) ++ y)) =
            ((c :: x2) ++ '\x7b' :: ((jmid ++ ['\x7d']) ++ y)) := by simp
        rw [hassoc] at hr hnb
        have hnn : nn ≤ (c :: x2).length := brace_at_boundary hnb
        have hrform : r = ((c :: x2).drop nn) ++ ('\x7b' :: (jmid ++ ['\x7d'])) ++ y := by
          rw [hr, List.drop_append_of_le_length hnn]
          simp
        obtain ⟨x3, y2, he, hsx, hsy⟩ := ih ((c :: x2).drop nn) jmid y hj
        rw [hrform]
        dsimp only
        rw [he]
        exact ⟨x3, y2, rfl, hsx.trans (List.drop_sublist nn (c :: x2)), hsy⟩

/-- C6 (counterexample): the input `42` has no brace pair yet raises no
parse error — the whole input parses as JSON and is returned; and the input
`\x7b"a": 1\x7d \x7d` is a well-formed JSON object followed by prose, yet
extraction raises (returns `none`) instead of recovering the object that
direct parsing yields. -/
theorem c6_extract_counterexample :
    extract_json_from_response "42" = some (Json.num 42) ∧
    jsonLoads "\x7b\"a\": 1\x7d" = some (Json.obj [("a", Json.num 1)]) ∧
    extract_json_from_response "\x7b\"a\": 1\x7d \x7d" = none :=
  ⟨rfl, rfl, rfl⟩

/-- C6 (amended): extraction recovers a well-formed JSON object (no
backticks) surrounded by arbitrary prose whose left part contains no opening
brace and whose right part no closing brace; in particular the same holds
with the object wrapped in a ```json or ``` fenced block inside such prose,
and for the concrete fenced reply; and for an input with no
opening-brace/closing-brace pair whose stripped/de-fenced text is not itself
valid JSON, the parse failure propagates (`none`). -/
theorem c6_extract_amended :
    (∀ (p1 jmid p2 : List Char) (v : Json),
        '\x7b' ∉ p1 → '\x7d' ∉ p2 → '\x60' ∉ jmid →
        jsonLoads ⟨'\x7b' :: (jmid ++ ['\x7d'])⟩ = some v →
        extract_json_from_response ⟨p1 ++ ('\x7b' :: (jmid ++ ['\x7d'])) ++ p2⟩ = some v) ∧
    (∀ (p1 jmid p2 : List Char) (v : Json),
        '\x7b' ∉ p1 → '\x7d' ∉ p2 → '\x60' ∉ jmid →
        jsonLoads ⟨'\x7b' :: (jmid ++ ['\x7d'])⟩ = some v →
        extract_json_from_response
            ⟨(p1 ++ "\x60\x60\x60json\n".data) ++ ('\x7b' :: (jmid ++ ['\x7d'])) ++
              ("\n\x60\x60\x60".data ++ p2)⟩ = some v ∧
        extract_json_from_response
            ⟨(p1 ++ "\x60\x60\x60\n".data) ++ ('\x7b' :: (jmid ++ ['\x7d'])) ++
              ("\n\x60\x60\x60".data ++ p2)⟩ = some v) ∧
    extract_json_from_response "\x60\x60\x60json\n\x7b\"a\": 1\x7d\n\x60\x60\x60"
      = some (Json.obj [("a", Json.num 1)]) ∧
    (∀ s : String, noBracePair s.data → jsonLoads ⟨preprocessed s⟩ = none →
        extract_json_from_response s = none) := by
  have main : ∀ (p1 jmid p2 : List Char) (v : Json),
      '\x7b' ∉ p1 → '\x7d' ∉ p2 → '\x60' ∉ jmid →
      jsonLoads ⟨'\x7b' :: (jmid ++ ['\x7d'])⟩ = some v →
      extract_json_from_response ⟨p1 ++ ('\x7b' :: (jmid ++ ['\x7d'])) ++ p2⟩ = some v := by
    intro p1 jmid p2 v h1 h2 h3 hload
    set j : List Char := '\x7b' :: (jmid ++ ['\x7d']) with hj
    have hjne : j ≠ [] := by simp [hj]
    have hjh : isSpaceC (j.headD ' ') = false := by rw [hj, List.headD_cons]; decide
    have hjl : isSpaceC (j.getLastD ' ') = false := by
      rw [hj, List.getLastD_cons, List.getLastD_concat]
      decide
    obtain ⟨q1, q2, he1, hq1, hq2⟩ := pyStripList_shape p1 j p2 hjne hjh hjl
    obtain ⟨a2, b2, he2, ha2, hb2⟩ := fenceOpenSub_shape (q1 ++ j ++ q2).length true q1 jmid q2 h3
    obtain ⟨a3, b3, he3, ha3, hb3⟩ := fenceCloseSub_shape (a2 ++ j ++ b2).length a2 jmid b2 h3
    obtain ⟨r1, r2, he4, hr1, hr2⟩ := pyStripList_shape a3 j b3 hjne hjh hjl
    have hb1 : '\x7b' ∉ r1 := fun hm => h1 ((hr1.trans ((ha3.trans ha2).trans hq1)).subset hm)
    have hb2x : '\x7d' ∉ r2 := fun hm => h2 ((hr2.trans ((hb3.trans hb2).trans hq2)).subset hm)
    unfold extract_json_from_response preprocessed
    dsimp only
    rw [he1, he2, he3, he4]
    rw [hj]
    rw [reSearchBraces_extract hb1 hb2x]
    rw [hload]
  refine ⟨main, ?_, rfl, ?_⟩
  · intro p1 jmid p2 v h1 h2 h3 hload
    have hf1 : '\x7b' ∉ (p1 ++ "\x60\x60\x60json\n".data) := by
      intro hm
      rcases List.mem_append.mp hm with hx | hx
      · exact h1 hx
      · simp at hx
    have hf1b : '\x7b' ∉ (p1 ++ "\x60\x60\x60\n".data) := by
      intro hm
      rcases List.mem_append.mp hm with hx | hx
      · exact h1 hx
      · simp at hx
    have hf2 : '\x7d' ∉ ("\n\x60\x60\x60".data ++ p2) := by
      intro hm
      rcases List.mem_append.mp hm with hx | hx
      · simp at hx
      · exact h2 hx
    exact ⟨main (p1 ++ "\x60\x60\x60json\n".data) jmid ("\n\x60\x60\x60".data ++ p2) v hf1 hf2 h3 hload,
           main (p1 ++ "\x60\x60\x60\n".data) jmid ("\n\x60\x60\x60".data ++ p2) v hf1b hf2 h3 hload⟩
  · intro s hnp hload
    have hnp3 : noBracePair (preprocessed s) :=
      noBracePair_sublist hnp (preprocessed_sublist s)
    have hsearch : reSearchBraces (preprocessed s) = preprocessed s :=
      reSearchBraces_of_noPair hnp3
    unfold extract_json_from_response
    dsimp only
    rw [hsearch, hload]
    cases hfb : fallbackSlice (preprocessed s) with
    | none => rfl
    | some sl =>
      rw [fallbackSlice_nil_of_noPair hnp3 hfb]
      exact jsonLoads_nil

/-- C6 (witness): the amended claim applied to a concrete fenced reply with
prose on both sides, and to concrete unfenced prose. -/
theorem c6_extract_amended_witness :
    extract_json_from_response
        ⟨("Sure:\n".data ++ "\x60\x60\x60json\n".data) ++
          ('\x7b' :: ("\"a\": 1".data ++ ['\x7d'])) ++
          ("\n\x60\x60\x60".data ++ " Done.".data)⟩ = some (Json.obj [("a", Json.num 1)]) ∧
    extract_json_from_response
        ⟨"Result: ".data ++ ('\x7b' :: ("\"a\": 1".data ++ ['\x7d'])) ++ " ok".data⟩ =
      some (Json.obj [("a", Json.num 1)]) :=
  ⟨(c6_extract_amended.2.1 "Sure:\n".data "\"a\": 1".data " Done.".data
      (Json.obj [("a", Json.num 1)]) (by decide) (by decide) (by decide) rfl).1,
   c6_extract_amended.1 "Result: ".data "\"a\": 1".data " ok".data
      (Json.obj [("a", Json.num 1)]) (by decide) (by decide) (by decide) rfl⟩


end Assistant
